import Mathlib

/-!
# Verification of the mesh-to-SDF preprocessing and CPU sampling pipeline

This file gives a shallow embedding, over exact rationals, of the mesh
preprocessing (`src/utils.rs`, `preprocess_mesh_for_sdf`) and the CPU
signed-distance-field generation (`src/cpu.rs`, `create_sdf_from_mesh_cpu`)
of the `mesh2sdf` crate, and proves the specification claims about them.

Modelling conventions:
* `f32` scalars are modelled as `ℚ` (exact arithmetic; float literals such
  as `0.001` become the rationals they denote).
* `f32::sqrt` is modelled by `sqrtQ`, exact on perfect squares of rationals
  and `0` elsewhere; `f32::acos` by `acosQ`, a rational surrogate.  No
  theorem below depends on the values of these functions outside the exact
  fragment.
* Rust panics (`panic!`, `assert!`, failed indexing, iterator `unwrap`)
  are modelled by `Except String`.
* `BTreeMap` accumulation maps are modelled by association lists kept
  strictly sorted by the key comparison, which is exactly the iteration
  order the Rust code observes when it collects the maps into vectors.
-/

/-- Rational model of a `Vec3A`/`Vec3` of `f32` components. -/
@[ext] structure Vec3 where
  x : ℚ
  y : ℚ
  z : ℚ
deriving DecidableEq, Repr

instance : Zero Vec3 := ⟨⟨0, 0, 0⟩⟩

instance : Add Vec3 := ⟨fun a b => ⟨a.x + b.x, a.y + b.y, a.z + b.z⟩⟩

instance : Sub Vec3 := ⟨fun a b => ⟨a.x - b.x, a.y - b.y, a.z - b.z⟩⟩

/-- Componentwise scaling `v * s` of a vector by a scalar (glam `Vec3A * f32`). -/
def Vec3.smul (v : Vec3) (s : ℚ) : Vec3 := ⟨v.x * s, v.y * s, v.z * s⟩

/-- Dot product of two vectors. -/
def Vec3.dot (a b : Vec3) : ℚ := a.x * b.x + a.y * b.y + a.z * b.z

/-- Cross product of two vectors (glam component order). -/
def Vec3.cross (a b : Vec3) : Vec3 :=
  ⟨a.y * b.z - a.z * b.y, a.z * b.x - a.x * b.z, a.x * b.y - a.y * b.x⟩

/-- `Vec3A::length_squared`. -/
def Vec3.lengthSquared (v : Vec3) : ℚ := v.dot v

/-- `Vec3A::distance_squared`. -/
def Vec3.distanceSquared (a b : Vec3) : ℚ := (a - b).lengthSquared

@[simp] theorem Vec3.zero_x : (0 : Vec3).x = 0 := rfl

@[simp] theorem Vec3.zero_y : (0 : Vec3).y = 0 := rfl

@[simp] theorem Vec3.zero_z : (0 : Vec3).z = 0 := rfl

@[simp] theorem Vec3.add_x (a b : Vec3) : (a + b).x = a.x + b.x := rfl

@[simp] theorem Vec3.add_y (a b : Vec3) : (a + b).y = a.y + b.y := rfl

@[simp] theorem Vec3.add_z (a b : Vec3) : (a + b).z = a.z + b.z := rfl

@[simp] theorem Vec3.sub_x (a b : Vec3) : (a - b).x = a.x - b.x := rfl

@[simp] theorem Vec3.sub_y (a b : Vec3) : (a - b).y = a.y - b.y := rfl

@[simp] theorem Vec3.sub_z (a b : Vec3) : (a - b).z = a.z - b.z := rfl

theorem Vec3.add_comm (a b : Vec3) : a + b = b + a := by
  ext <;> simp <;> ring

theorem Vec3.add_assoc (a b c : Vec3) : a + b + c = a + (b + c) := by
  ext <;> simp <;> ring

theorem Vec3.zero_add (a : Vec3) : 0 + a = a := by
  ext <;> simp

/-- Rational model of a `Vec4` of `f32` components. -/
@[ext] structure Vec4 where
  x : ℚ
  y : ℚ
  z : ℚ
  w : ℚ
deriving DecidableEq, Repr

instance : Add Vec4 := ⟨fun a b => ⟨a.x + b.x, a.y + b.y, a.z + b.z, a.w + b.w⟩⟩

/-- Componentwise scaling of a `Vec4` by a scalar. -/
def Vec4.smul (v : Vec4) (s : ℚ) : Vec4 := ⟨v.x * s, v.y * s, v.z * s, v.w * s⟩

/-- Dot product of two `Vec4`s. -/
def Vec4.dot (a b : Vec4) : ℚ := a.x * b.x + a.y * b.y + a.z * b.z + a.w * b.w

/-- `Vec3::extend`: append a fourth component. -/
def Vec3.extend (v : Vec3) (w : ℚ) : Vec4 := ⟨v.x, v.y, v.z, w⟩

/-- `Vec4::truncate`: drop the fourth component. -/
def Vec4.truncate (v : Vec4) : Vec3 := ⟨v.x, v.y, v.z⟩

/-- Componentwise division of a `Vec3` by a scalar. -/
def Vec3.divScalar (v : Vec3) (s : ℚ) : Vec3 := ⟨v.x / s, v.y / s, v.z / s⟩

/-- Rational model of a column-major `Mat4`. -/
structure Mat4 where
  col0 : Vec4
  col1 : Vec4
  col2 : Vec4
  col3 : Vec4
deriving DecidableEq, Repr

instance : Add Mat4 :=
  ⟨fun a b => ⟨a.col0 + b.col0, a.col1 + b.col1, a.col2 + b.col2, a.col3 + b.col3⟩⟩

/-- `Mat4 * f32`: scale every column. -/
def Mat4.smul (m : Mat4) (s : ℚ) : Mat4 :=
  ⟨m.col0.smul s, m.col1.smul s, m.col2.smul s, m.col3.smul s⟩

/-- `Mat4 * Vec4` (column-major linear combination). -/
def Mat4.mulVec4 (m : Mat4) (v : Vec4) : Vec4 :=
  m.col0.smul v.x + m.col1.smul v.y + m.col2.smul v.z + m.col3.smul v.w

/-- Idealized model of `f32::sqrt`: the exact square root on perfect squares
of nonnegative rationals (where `f32::sqrt` is also exact on representable
values) and `0` elsewhere.  No theorem in this file depends on its values
off the exact fragment. -/
def sqrtQ (q : ℚ) : ℚ :=
  if 0 ≤ q ∧ Nat.sqrt q.num.natAbs ^ 2 = q.num.natAbs ∧ Nat.sqrt q.den ^ 2 = q.den then
    (Nat.sqrt q.num.natAbs : ℚ) / (Nat.sqrt q.den : ℚ)
  else 0

/-- Idealized rational surrogate for `f32::acos` (the angle weight in the
pseudonormal accumulation).  The structural theorems in this file are
independent of its values. -/
def acosQ (q : ℚ) : ℚ := (1 - q) * (11 / 7)

/-- `Vec3A::normalize`: divide by the length (modelled through `sqrtQ`). -/
def Vec3.normalize (v : Vec3) : Vec3 := v.divScalar (sqrtQ v.lengthSquared)

/-- The exact value of `f32::MAX`, `(2 - 2⁻²³) * 2¹²⁷`. -/
def f32MAX : ℚ := 2 ^ 128 - 2 ^ 104

/-- `f32::clamp` (Rust semantics on ordered, non-NaN inputs). -/
def clampQ (x lo hi : ℚ) : ℚ := if x < lo then lo else if x > hi then hi else x

/-- Three-way comparison of rationals, modelling `FloatOrd`'s comparison of
finite `f32` values. -/
def cmpQ (a b : ℚ) : Ordering := if a < b then .lt else if b < a then .gt else .eq

/-- The key comparison of `OrderedVec`: lexicographic by `x`, then `y`,
then `z`, chained exactly as the `Ord` impl chains `FloatOrd` comparisons
with `Ordering::then`. -/
def cmpV (a b : Vec3) : Ordering :=
  ((cmpQ a.x b.x).then (cmpQ a.y b.y)).then (cmpQ a.z b.z)

/-- The derived comparison on edge keys `(OrderedVec, OrderedVec)`
(the lexicographic `Ord` instance on pairs used by the edge `BTreeMap`). -/
def cmpE (a b : Vec3 × Vec3) : Ordering := (cmpV a.1 b.1).then (cmpV a.2 b.2)

theorem cmpQ_eq_iff {a b : ℚ} : cmpQ a b = .eq ↔ a = b := by
  unfold cmpQ
  split_ifs with h1 h2
  · exact iff_of_false (by simp) (ne_of_lt h1)
  · exact iff_of_false (by simp) (ne_of_gt h2)
  · exact iff_of_true rfl (le_antisymm (not_lt.mp h2) (not_lt.mp h1))

theorem cmpQ_lt_iff {a b : ℚ} : cmpQ a b = .lt ↔ a < b := by
  unfold cmpQ
  split_ifs with h1 h2
  · exact iff_of_true rfl h1
  · exact iff_of_false (by simp) h1
  · exact iff_of_false (by simp) h1

theorem cmpQ_swap (a b : ℚ) : (cmpQ a b).swap = cmpQ b a := by
  unfold cmpQ
  rcases lt_trichotomy a b with h | h | h
  · simp [h, lt_asymm h, Ordering.swap]
  · simp [h, lt_irrefl, Ordering.swap]
  · simp [h, lt_asymm h, Ordering.swap]

theorem orderingSwapDistrib (o₁ o₂ : Ordering) :
    (o₁.then o₂).swap = o₁.swap.then o₂.swap := by
  cases o₁ <;> rfl

theorem cmpV_swap (a b : Vec3) : (cmpV a b).swap = cmpV b a := by
  unfold cmpV
  rw [orderingSwapDistrib, orderingSwapDistrib, cmpQ_swap, cmpQ_swap, cmpQ_swap]

theorem cmpV_eq_iff {a b : Vec3} : cmpV a b = .eq ↔ a = b := by
  unfold cmpV
  simp only [Ordering.then_eq_eq, cmpQ_eq_iff]
  constructor
  · rintro ⟨⟨hx, hy⟩, hz⟩; ext <;> assumption
  · rintro rfl; exact ⟨⟨rfl, rfl⟩, rfl⟩

theorem cmpV_lt_iff {a b : Vec3} :
    cmpV a b = .lt ↔
      a.x < b.x ∨ (a.x = b.x ∧ (a.y < b.y ∨ (a.y = b.y ∧ a.z < b.z))) := by
  unfold cmpV
  simp only [Ordering.then_eq_lt, Ordering.then_eq_eq, cmpQ_eq_iff, cmpQ_lt_iff]
  tauto

theorem cmpV_gt_iff {a b : Vec3} : cmpV a b = .gt ↔ cmpV b a = .lt := by
  rw [← cmpV_swap]
  cases cmpV b a <;> simp [Ordering.swap]

theorem cmpV_lt_trans {a b c : Vec3} (hab : cmpV a b = .lt) (hbc : cmpV b c = .lt) :
    cmpV a c = .lt := by
  rw [cmpV_lt_iff] at hab hbc ⊢
  rcases hab with h₁ | ⟨hx₁, h₁⟩ <;> rcases hbc with h₂ | ⟨hx₂, h₂⟩
  · exact Or.inl (lt_trans h₁ h₂)
  · exact Or.inl (hx₂ ▸ h₁)
  · exact Or.inl (hx₁ ▸ h₂)
  · refine Or.inr ⟨hx₁.trans hx₂, ?_⟩
    rcases h₁ with h₁ | ⟨hy₁, h₁⟩ <;> rcases h₂ with h₂ | ⟨hy₂, h₂⟩
    · exact Or.inl (lt_trans h₁ h₂)
    · exact Or.inl (hy₂ ▸ h₁)
    · exact Or.inl (hy₁ ▸ h₂)
    · exact Or.inr ⟨hy₁.trans hy₂, lt_trans h₁ h₂⟩

theorem cmpE_swap (a b : Vec3 × Vec3) : (cmpE a b).swap = cmpE b a := by
  unfold cmpE
  rw [orderingSwapDistrib, cmpV_swap, cmpV_swap]

theorem cmpE_eq_iff {a b : Vec3 × Vec3} : cmpE a b = .eq ↔ a = b := by
  unfold cmpE
  simp only [Ordering.then_eq_eq, cmpV_eq_iff]
  constructor
  · rintro ⟨h₁, h₂⟩; exact Prod.ext h₁ h₂
  · rintro rfl; exact ⟨rfl, rfl⟩

theorem cmpE_gt_iff {a b : Vec3 × Vec3} : cmpE a b = .gt ↔ cmpE b a = .lt := by
  rw [← cmpE_swap]
  cases cmpE b a <;> simp [Ordering.swap]

theorem cmpE_lt_trans {a b c : Vec3 × Vec3} (hab : cmpE a b = .lt)
    (hbc : cmpE b c = .lt) : cmpE a c = .lt := by
  unfold cmpE at hab hbc ⊢
  simp only [Ordering.then_eq_lt, Ordering.then_eq_eq, cmpV_eq_iff] at hab hbc ⊢
  rcases hab with h₁ | ⟨hx₁, h₁⟩ <;> rcases hbc with h₂ | ⟨hx₂, h₂⟩
  · exact Or.inl (cmpV_lt_trans h₁ h₂)
  · exact Or.inl (hx₂ ▸ h₁)
  · exact Or.inl (hx₁ ▸ h₂)
  · exact Or.inr ⟨hx₁.trans hx₂, cmpV_lt_trans h₁ h₂⟩

theorem cmpV_law_eq : ∀ a b : Vec3, cmpV a b = .eq ↔ a = b := fun _ _ => cmpV_eq_iff

theorem cmpV_law_gt : ∀ a b : Vec3, cmpV a b = .gt ↔ cmpV b a = .lt := fun _ _ => cmpV_gt_iff

theorem cmpV_law_tr : ∀ {a b c : Vec3}, cmpV a b = .lt → cmpV b c = .lt → cmpV a c = .lt :=
  fun hab hbc => cmpV_lt_trans hab hbc

theorem cmpE_law_eq : ∀ a b : Vec3 × Vec3, cmpE a b = .eq ↔ a = b := fun _ _ => cmpE_eq_iff

theorem cmpE_law_gt : ∀ a b : Vec3 × Vec3, cmpE a b = .gt ↔ cmpE b a = .lt :=
  fun _ _ => cmpE_gt_iff

theorem cmpE_law_tr : ∀ {a b c : Vec3 × Vec3},
    cmpE a b = .lt → cmpE b c = .lt → cmpE a c = .lt :=
  fun hab hbc => cmpE_lt_trans hab hbc

/-- One `*map.entry(key).or_default() += value` step of the Rust code, on
the sorted association-list model of `BTreeMap`. -/
def insertAdd {κ : Type} (cmp : κ → κ → Ordering) (k : κ) (v : Vec3) :
    List (κ × Vec3) → List (κ × Vec3)
  | [] => [(k, v)]
  | (k', v') :: rest =>
    match cmp k k' with
    | .lt => (k, v) :: (k', v') :: rest
    | .eq => (k', v' + v) :: rest
    | .gt => (k', v') :: insertAdd cmp k v rest

/-- `BTreeMap` lookup on the association-list model. -/
def lookupA {κ : Type} (cmp : κ → κ → Ordering) (k : κ) :
    List (κ × Vec3) → Option Vec3
  | [] => none
  | (k', v') :: rest => if cmp k k' = .eq then some v' else lookupA cmp k rest

/-- Strict sortedness by `cmp` on the keys: the `BTreeMap` iteration-order
invariant of the association-list model. -/
def SortedBy {κ : Type} (cmp : κ → κ → Ordering) (m : List (κ × Vec3)) : Prop :=
  List.Pairwise (fun p q => cmp p.1 q.1 = .lt) m

theorem mem_insertAdd_key {κ : Type} {cmp : κ → κ → Ordering} {k : κ} {v : Vec3} :
    ∀ {m : List (κ × Vec3)} {q : κ × Vec3}, q ∈ insertAdd cmp k v m →
      q.1 = k ∨ q.1 ∈ m.map Prod.fst := by
  intro m
  induction m with
  | nil =>
    intro q hq
    simp only [insertAdd, List.mem_singleton] at hq
    exact Or.inl (congrArg Prod.fst hq)
  | cons p rest ih =>
    obtain ⟨k', v'⟩ := p
    intro q hq
    simp only [insertAdd] at hq
    cases h : cmp k k' <;> rw [h] at hq <;> simp only [List.mem_cons] at hq
    · rcases hq with hq | hq | hq
      · exact Or.inl (congrArg Prod.fst hq)
      · subst hq; simp
      · simp only [List.map_cons, List.mem_cons]
        exact Or.inr (Or.inr (List.mem_map_of_mem Prod.fst hq))
    · rcases hq with hq | hq
      · subst hq; simp
      · simp only [List.map_cons, List.mem_cons]
        exact Or.inr (Or.inr (List.mem_map_of_mem Prod.fst hq))
    · rcases hq with hq | hq
      · subst hq; simp
      · rcases ih hq with h' | h'
        · exact Or.inl h'
        · simp only [List.map_cons, List.mem_cons]
          exact Or.inr (Or.inr h')

theorem sortedBy_insertAdd {κ : Type} {cmp : κ → κ → Ordering}
    (hgt : ∀ a b, cmp a b = .gt ↔ cmp b a = .lt)
    (htr : ∀ {a b c}, cmp a b = .lt → cmp b c = .lt → cmp a c = .lt)
    (k : κ) (v : Vec3) :
    ∀ {m : List (κ × Vec3)}, SortedBy cmp m → SortedBy cmp (insertAdd cmp k v m) := by
  intro m
  induction m with
  | nil => intro _; simp [insertAdd, SortedBy]
  | cons p rest ih =>
    obtain ⟨k', v'⟩ := p
    intro hm
    rw [SortedBy, List.pairwise_cons] at hm
    obtain ⟨hhead, htail⟩ := hm
    simp only [insertAdd]
    cases h : cmp k k'
    · rw [SortedBy, List.pairwise_cons]
      constructor
      · intro q hq
        rcases List.mem_cons.mp hq with hq | hq
        · rw [hq]; exact h
        · exact htr h (hhead q hq)
      · rw [List.pairwise_cons]; exact ⟨hhead, htail⟩
    · rw [SortedBy, List.pairwise_cons]
      exact ⟨hhead, htail⟩
    · rw [SortedBy, List.pairwise_cons]
      constructor
      · intro q hq
        rcases mem_insertAdd_key hq with h' | h'
        · rw [h']; exact (hgt k k').mp h
        · rcases List.mem_map.mp h' with ⟨q', hq', hk⟩
          rw [← hk]; exact hhead q' hq'
      · exact ih htail

theorem lookupA_eq_none {κ : Type} {cmp : κ → κ → Ordering} {k : κ} :
    ∀ {m : List (κ × Vec3)}, (∀ q ∈ m, cmp k q.1 ≠ .eq) → lookupA cmp k m = none := by
  intro m
  induction m with
  | nil => intro _; rfl
  | cons p rest ih =>
    obtain ⟨k', v'⟩ := p
    intro hall
    simp only [lookupA]
    rw [if_neg (hall (k', v') (List.mem_cons_self _ _))]
    exact ih fun q hq => hall q (List.mem_cons_of_mem _ hq)

theorem lookupA_mem {κ : Type} {cmp : κ → κ → Ordering}
    (heq : ∀ a b, cmp a b = .eq ↔ a = b) {k : κ} {v : Vec3} :
    ∀ {m : List (κ × Vec3)}, lookupA cmp k m = some v → (k, v) ∈ m := by
  intro m
  induction m with
  | nil => intro h; simp [lookupA] at h
  | cons p rest ih =>
    obtain ⟨k', v'⟩ := p
    intro h
    simp only [lookupA] at h
    split_ifs at h with hc
    · obtain rfl : k = k' := (heq k k').mp hc
      obtain rfl : v' = v := by injection h
      exact List.mem_cons_self _ _
    · exact List.mem_cons_of_mem _ (ih h)

theorem lookupA_insertAdd_self {κ : Type} {cmp : κ → κ → Ordering}
    (heq : ∀ a b, cmp a b = .eq ↔ a = b)
    (htr : ∀ {a b c}, cmp a b = .lt → cmp b c = .lt → cmp a c = .lt)
    (k : κ) (v : Vec3) :
    ∀ {m : List (κ × Vec3)}, SortedBy cmp m →
      lookupA cmp k (insertAdd cmp k v m) = some ((lookupA cmp k m).getD 0 + v) := by
  intro m
  induction m with
  | nil =>
    intro _
    simp only [insertAdd, lookupA, if_pos ((heq k k).mpr rfl), Option.getD_none]
    rw [Vec3.zero_add]
  | cons p rest ih =>
    obtain ⟨k', v'⟩ := p
    intro hm
    rw [SortedBy, List.pairwise_cons] at hm
    obtain ⟨hhead, htail⟩ := hm
    simp only [insertAdd]
    cases h : cmp k k'
    · have hne : cmp k k' ≠ .eq := by rw [h]; simp
      have hnone : lookupA cmp k rest = none := by
        refine lookupA_eq_none fun q hq => ?_
        rw [htr h (hhead q hq)]; simp
      simp only [lookupA, if_pos ((heq k k).mpr rfl), if_neg hne, hnone,
        Option.getD_none]
      rw [Vec3.zero_add]
    · simp only [lookupA, if_pos h, Option.getD_some]
    · have hne : cmp k k' ≠ .eq := by rw [h]; simp
      simp only [lookupA, if_neg hne]
      exact ih htail

theorem lookupA_insertAdd_ne {κ : Type} {cmp : κ → κ → Ordering}
    (heq : ∀ a b, cmp a b = .eq ↔ a = b)
    {k' k : κ} (hne : k' ≠ k) (v : Vec3) :
    ∀ {m : List (κ × Vec3)},
      lookupA cmp k' (insertAdd cmp k v m) = lookupA cmp k' m := by
  have hne' : cmp k' k ≠ .eq := fun hc => hne ((heq k' k).mp hc)
  intro m
  induction m with
  | nil => simp only [insertAdd, lookupA, if_neg hne']
  | cons p rest ih =>
    obtain ⟨k'', v''⟩ := p
    simp only [insertAdd]
    cases h : cmp k k''
    · simp only [lookupA, if_neg hne']
    · obtain rfl : k = k'' := (heq k k'').mp h
      simp only [lookupA, if_neg hne']
    · simp only [lookupA]
      split_ifs with hc
      · rfl
      · exact ih

theorem sortedBy_ext {κ : Type} {cmp : κ → κ → Ordering}
    (heq : ∀ a b, cmp a b = .eq ↔ a = b)
    (hgt : ∀ a b, cmp a b = .gt ↔ cmp b a = .lt) :
    ∀ {m₁ m₂ : List (κ × Vec3)}, SortedBy cmp m₁ → SortedBy cmp m₂ →
      (∀ k, lookupA cmp k m₁ = lookupA cmp k m₂) → m₁ = m₂ := by
  intro m₁
  induction m₁ with
  | nil =>
    intro m₂ _ _ hl
    cases m₂ with
    | nil => rfl
    | cons p t =>
      exfalso
      have := hl p.1
      simp only [lookupA, if_pos ((heq p.1 p.1).mpr rfl)] at this
      obtain ⟨k₂, v₂⟩ := p
      simp [lookupA] at this
  | cons p₁ t₁ ih =>
    intro m₂ h₁ h₂ hl
    obtain ⟨k₁, v₁⟩ := p₁
    cases m₂ with
    | nil =>
      exfalso
      have := hl k₁
      simp only [lookupA, if_pos ((heq k₁ k₁).mpr rfl)] at this
      simp [lookupA] at this
    | cons p₂ t₂ =>
      obtain ⟨k₂, v₂⟩ := p₂
      rw [SortedBy, List.pairwise_cons] at h₁ h₂
      obtain ⟨hh₁, ht₁⟩ := h₁
      obtain ⟨hh₂, ht₂⟩ := h₂
      have hkey : k₁ = k₂ := by
        by_contra hne
        have l₁ : lookupA cmp k₁ ((k₂, v₂) :: t₂) = some v₁ := by
          rw [← hl k₁]; simp [lookupA, if_pos ((heq k₁ k₁).mpr rfl)]
        have l₂ : lookupA cmp k₂ ((k₁, v₁) :: t₁) = some v₂ := by
          rw [hl k₂]; simp [lookupA, if_pos ((heq k₂ k₂).mpr rfl)]
        have hne₁₂ : cmp k₁ k₂ ≠ .eq := fun hc => hne ((heq k₁ k₂).mp hc)
        have hne₂₁ : cmp k₂ k₁ ≠ .eq := fun hc => hne (((heq k₂ k₁).mp hc).symm)
        rw [lookupA, if_neg hne₁₂] at l₁
        rw [lookupA, if_neg hne₂₁] at l₂
        have m₁mem := lookupA_mem heq l₁
        have m₂mem := lookupA_mem heq l₂
        have c₁ : cmp k₂ k₁ = .lt := hh₂ (k₁, v₁) m₁mem
        have c₂ : cmp k₁ k₂ = .lt := hh₁ (k₂, v₂) m₂mem
        rw [← hgt] at c₁
        rw [c₁] at c₂
        exact absurd c₂ (by simp)
      subst hkey
      have hval : v₁ = v₂ := by
        have := hl k₁
        simp only [lookupA, if_pos ((heq k₁ k₁).mpr rfl)] at this
        injection this
      subst hval
      have htall : ∀ k, lookupA cmp k t₁ = lookupA cmp k t₂ := by
        intro k
        by_cases hk : k = k₁
        · subst hk
          have n₁ : lookupA cmp k t₁ = none :=
            lookupA_eq_none fun q hq => by rw [hh₁ q hq]; simp
          have n₂ : lookupA cmp k t₂ = none :=
            lookupA_eq_none fun q hq => by rw [hh₂ q hq]; simp
          rw [n₁, n₂]
        · have e₁ := hl k
          have hkne : cmp k k₁ ≠ .eq := fun hc => hk ((heq k k₁).mp hc)
          rw [lookupA, if_neg hkne, lookupA, if_neg hkne] at e₁
          exact e₁
      rw [ih ht₁ ht₂ htall]

theorem insertAdd_comm {κ : Type} {cmp : κ → κ → Ordering}
    (heq : ∀ a b, cmp a b = .eq ↔ a = b)
    (hgt : ∀ a b, cmp a b = .gt ↔ cmp b a = .lt)
    (htr : ∀ {a b c}, cmp a b = .lt → cmp b c = .lt → cmp a c = .lt)
    (k₁ k₂ : κ) (v₁ v₂ : Vec3) {m : List (κ × Vec3)} (hm : SortedBy cmp m) :
    insertAdd cmp k₁ v₁ (insertAdd cmp k₂ v₂ m) =
      insertAdd cmp k₂ v₂ (insertAdd cmp k₁ v₁ m) := by
  have s₂ := sortedBy_insertAdd hgt htr k₂ v₂ hm
  have s₁ := sortedBy_insertAdd hgt htr k₁ v₁ hm
  refine sortedBy_ext heq hgt (sortedBy_insertAdd hgt htr _ _ s₂)
    (sortedBy_insertAdd hgt htr _ _ s₁) fun k => ?_
  by_cases h₁ : k = k₁ <;> by_cases h₂ : k = k₂
  · subst h₁
    subst h₂
    rw [lookupA_insertAdd_self heq htr _ _ s₂, lookupA_insertAdd_self heq htr _ _ s₁,
      lookupA_insertAdd_self heq htr _ _ hm, lookupA_insertAdd_self heq htr _ _ hm]
    simp only [Option.getD_some]
    rw [Vec3.add_assoc, Vec3.add_assoc, Vec3.add_comm v₂ v₁]
  · subst h₁
    rw [lookupA_insertAdd_self heq htr _ _ s₂,
      lookupA_insertAdd_ne heq h₂ _,
      lookupA_insertAdd_ne heq h₂ _,
      lookupA_insertAdd_self heq htr _ _ hm]
  · subst h₂
    rw [lookupA_insertAdd_ne heq h₁ _,
      lookupA_insertAdd_self heq htr _ _ s₁,
      lookupA_insertAdd_self heq htr _ _ hm,
      lookupA_insertAdd_ne heq h₁ _]
  · rw [lookupA_insertAdd_ne heq h₁ _, lookupA_insertAdd_ne heq h₂ _,
      lookupA_insertAdd_ne heq h₂ _, lookupA_insertAdd_ne heq h₁ _]

/-- `bevy::render::mesh::PrimitiveTopology`. -/
inductive PrimitiveTopology
  | pointList
  | lineList
  | lineStrip
  | triangleList
  | triangleStrip
deriving DecidableEq, Repr

/-- The `VertexAttributeValues` variants the SDF pipeline inspects;
`otherFormat` stands for every other payload variant. -/
inductive VertexAttributeValues
  | float32x3 (values : List Vec3)
  | float32x4 (values : List Vec4)
  | uint16x4 (values : List (ℕ × ℕ × ℕ × ℕ))
  | otherFormat
deriving DecidableEq, Repr

/-- The parts of a `bevy` `Mesh` read by the pipeline: primitive topology,
the `POSITION`, `JOINT_WEIGHT` and `JOINT_INDEX` attributes, and the
optional index buffer. -/
structure Mesh where
  primitiveTopology : PrimitiveTopology
  positions : Option VertexAttributeValues
  jointWeights : Option VertexAttributeValues
  jointIndices : Option VertexAttributeValues
  indices : Option (List ℕ)
deriving DecidableEq, Repr

/-- The `weight_with_joints` closure of `preprocess_mesh_for_sdf`: transform
a corner by the weighted sum of its four joint matrices and divide by the
homogeneous coordinate.  The source's panics (missing or badly-typed joint
attributes, out-of-range lookups) are modelled as errors. -/
def weightWithJoints (mesh : Mesh) (joints : List Mat4) (v : Vec3) (index : ℕ) :
    Except String Vec3 :=
  match mesh.jointWeights with
  | some (.float32x4 jointWeights) =>
    match mesh.jointIndices with
    | some (.uint16x4 jointIndexes) =>
      match jointIndexes.get? index, jointWeights.get? index with
      | some indexes, some weights =>
        match joints.get? indexes.1, joints.get? indexes.2.1,
            joints.get? indexes.2.2.1, joints.get? indexes.2.2.2 with
        | some m0, some m1, some m2, some m3 =>
          let mat := m0.smul weights.x + m1.smul weights.y + m2.smul weights.z +
            m3.smul weights.w
          let res := mat.mulVec4 (v.extend 1)
          .ok (res.truncate.divScalar res.w)
        | _, _, _, _ => .error "index out of bounds"
      | _, _ => .error "index out of bounds"
    | _ => .error "bad joint indexes!"
  | _ => .error "bad joint weights!"

/-- The `weight` closure: apply the skinning transform only when joint
matrices were supplied. -/
def weightCorner (mesh : Mesh) (joints : Option (List Mat4)) (v : Vec3) (index : ℕ) :
    Except String Vec3 :=
  match joints with
  | some js => weightWithJoints mesh js v index
  | none => .ok v

/-- The effective position stream `values` of `preprocess_mesh_for_sdf`:
indexed through the index buffer when present, then skin-transformed.
`.error` models the source's panics (missing or badly-typed `POSITION`
attribute, out-of-range index, bad joint data). -/
def effectiveValues (mesh : Mesh) (joints : Option (List Mat4)) :
    Except String (List Vec3) :=
  match mesh.positions with
  | some (.float32x3 values) =>
    match mesh.indices with
    | some ix =>
      ix.mapM fun i =>
        match values.get? i with
        | some v => weightCorner mesh joints v i
        | none => .error "index out of bounds"
    | none => values.enum.mapM fun p => weightCorner mesh joints p.2 p.1
  | _ => .error "bad mesh"

/-- `chunks_exact(3)`: group the position stream into triangles, dropping
any incomplete remainder. -/
def chunks3 {α : Type} : List α → List (α × α × α)
  | a :: b :: c :: rest => (a, b, c) :: chunks3 rest
  | _ => []

/-- `Vec3A::length`, through the idealized square root. -/
def Vec3.length (v : Vec3) : ℚ := sqrtQ v.lengthSquared

/-- The nested helper `tri_angle`: the interior angle opposite side `opp`
by the law of cosines. -/
def tri_angle (opp a b : ℚ) : ℚ := acosQ ((a * a + b * b - opp * opp) / (2 * a * b))

/-- The face normal as the loop computes it, from the corners in their
*original* winding order, before canonicalization. -/
def triNormal (t : Vec3 × Vec3 × Vec3) : Vec3 :=
  ((t.2.1 - t.1).cross (t.2.2 - t.2.1)).normalize

/-- The `sorted.sort()` canonicalization of the three corners under the
`OrderedVec` total order (a three-element insertion sort; on a strict total
order every correct sort agrees with it). -/
def sort3 (a b c : Vec3) : Vec3 × Vec3 × Vec3 :=
  if cmpV b a = .lt then
    if cmpV c b = .lt then (c, b, a)
    else if cmpV c a = .lt then (b, c, a) else (b, a, c)
  else
    if cmpV c a = .lt then (c, a, b)
    else if cmpV c b = .lt then (a, c, b) else (a, b, c)

/-- The canonicalized (sorted) corners of a triangle. -/
def sortedCorners (t : Vec3 × Vec3 × Vec3) : Vec3 × Vec3 × Vec3 :=
  sort3 t.1 t.2.1 t.2.2

/-- The three interior angles `(a_angle, b_angle, c_angle)` of the
canonicalized corners, via `tri_angle`. -/
def cornerAngles (t : Vec3 × Vec3 × Vec3) : ℚ × ℚ × ℚ :=
  let s := sortedCorners t
  let ab_len := (s.2.1 - s.1).length
  let ac_len := (s.2.2 - s.1).length
  let bc_len := (s.2.2 - s.2.1).length
  (tri_angle bc_len ab_len ac_len, tri_angle ac_len ab_len bc_len,
    tri_angle ab_len ac_len bc_len)

/-- Vertex-map update of one loop iteration: accumulate `normal * angle`
into the entries of the three canonicalized corners, in source order. -/
def addTriV (m : List (Vec3 × Vec3)) (t : Vec3 × Vec3 × Vec3) : List (Vec3 × Vec3) :=
  let normal := triNormal t
  let s := sortedCorners t
  let ang := cornerAngles t
  insertAdd cmpV s.2.2 (normal.smul ang.2.2)
    (insertAdd cmpV s.2.1 (normal.smul ang.2.1)
      (insertAdd cmpV s.1 (normal.smul ang.1) m))

/-- Edge-map update of one loop iteration: accumulate the unweighted
`normal` into the entries of the three canonical edge pairs, in source
order `(a,b)`, `(a,c)`, `(b,c)`. -/
def addTriE (m : List ((Vec3 × Vec3) × Vec3)) (t : Vec3 × Vec3 × Vec3) :
    List ((Vec3 × Vec3) × Vec3) :=
  let normal := triNormal t
  let s := sortedCorners t
  insertAdd cmpE (s.2.1, s.2.2) normal
    (insertAdd cmpE (s.1, s.2.2) normal
      (insertAdd cmpE (s.1, s.2.1) normal m))

/-- The per-triangle record `TriData`; `plane` is the `Vec4`
`normal.extend(-(a.dot(normal)))` stored inside `Plane`. -/
structure TriData where
  a : Vec3
  b : Vec3
  c : Vec3
  inv_area : ℚ
  plane : Vec4
deriving DecidableEq, Repr

/-- `Plane::normal`: the `xyz` part of the stored `Vec4`. -/
def planeNormal (p : Vec4) : Vec3 := ⟨p.x, p.y, p.z⟩

/-- The triangle record pushed by one loop iteration. -/
def triRecord (t : Vec3 × Vec3 × Vec3) : TriData :=
  let normal := triNormal t
  let s := sortedCorners t
  let plane := normal.extend (-(s.1.dot normal))
  let inv_area := (((s.2.1 - s.1).cross (s.2.2 - s.1)).dot (planeNormal plane))⁻¹
  ⟨s.1, s.2.1, s.2.2, inv_area, plane⟩

/-- The accumulation state of the preprocessing loop. -/
structure PreState where
  vmap : List (Vec3 × Vec3)
  emap : List ((Vec3 × Vec3) × Vec3)
  tris : List TriData
deriving DecidableEq, Repr

/-- The body of the `for tri in values.chunks_exact(3)` loop. -/
def processTri (s : PreState) (t : Vec3 × Vec3 × Vec3) : PreState :=
  ⟨addTriV s.vmap t, addTriE s.emap t, s.tris ++ [triRecord t]⟩

/-- `PreprocessedMeshData`: the deduplicated vertex and edge pseudonormal
maps (in `BTreeMap` iteration order) and the triangle records. -/
structure PreprocessedMeshData where
  vertices : List (Vec3 × Vec3)
  edges : List ((Vec3 × Vec3) × Vec3)
  triangles : List TriData
deriving DecidableEq, Repr

/-- `preprocess_mesh_for_sdf`. -/
def preprocess_mesh_for_sdf (mesh : Mesh) (joints : Option (List Mat4)) :
    Except String PreprocessedMeshData := do
  let values ← effectiveValues mesh joints
  let s := (chunks3 values).foldl processTri ⟨[], [], []⟩
  .ok ⟨s.vmap, s.emap, s.tris⟩

/-- The running best candidate `Res` of `compute_distance`. -/
structure Res where
  dist_sq : ℚ
  norm : Vec3
  nearest : Vec3
deriving DecidableEq, Repr

/-- The initial best candidate: squared distance `f32::MAX`, zero normal
and zero nearest point (`..Default::default()`). -/
def initialRes : Res := ⟨f32MAX, 0, 0⟩

/-- One iteration of the vertex tier of `compute_distance`. -/
def vertStep (point : Vec3) (best : Res) (vn : Vec3 × Vec3) : Res :=
  let dist_sq := point.distanceSquared vn.1
  if dist_sq < best.dist_sq then ⟨dist_sq, vn.2, vn.1⟩ else best

/-- One iteration of the edge tier of `compute_distance`, including the
endpoint dead-zone `continue`. -/
def edgeStep (point : Vec3) (best : Res) (e : (Vec3 × Vec3) × Vec3) : Res :=
  let v0 := e.1.1
  let v1 := e.1.2
  let line := v1 - v0
  let line_len_sq := line.lengthSquared
  let intercept := clampQ ((point - v0).dot line) 0 line_len_sq
  if intercept < 1 / 1000 ∨ intercept > line_len_sq * (999 / 1000) then best
  else
    let nearest := v0 + line.smul (intercept / line_len_sq)
    let dist_sq := point.distanceSquared nearest
    if dist_sq < best.dist_sq then ⟨dist_sq, e.2, nearest⟩ else best

/-- One iteration of the triangle tier of `compute_distance`: plane-distance
early reject, projection, barycentric sign test (`is_sign_positive` on
exact rationals is `0 ≤ ·`). -/
def triStep (point : Vec3) (best : Res) (tri : TriData) : Res :=
  let distance_to_plane := tri.plane.dot (point.extend 1)
  let distance_to_plane_sq := distance_to_plane * distance_to_plane
  if distance_to_plane_sq > best.dist_sq then best
  else
    let n := planeNormal tri.plane
    let point_on_plane := point - n.smul distance_to_plane
    let u := ((tri.c - tri.b).cross (point_on_plane - tri.b)).dot n * tri.inv_area
    let v := ((tri.a - tri.c).cross (point_on_plane - tri.c)).dot n * tri.inv_area
    let w := 1 - u - v
    if 0 ≤ u ∧ 0 ≤ v ∧ 0 ≤ w then ⟨distance_to_plane_sq, n, point_on_plane⟩
    else best

/-- The `compute_distance` closure of `create_sdf_from_mesh_cpu` (the
`debug` printing has no effect on the result and is omitted). -/
def compute_distance (prep : PreprocessedMeshData) (point : Vec3) : ℚ :=
  let best := prep.triangles.foldl (triStep point)
    (prep.edges.foldl (edgeStep point)
      (prep.vertices.foldl (vertStep point) initialRes))
  let direction := point - best.nearest
  let outside := 0 ≤ direction.dot best.norm
  if outside then sqrtQ best.dist_sq else -sqrtQ best.dist_sq

/-- The three-tier feature scan: the best candidate after the vertex, edge
and triangle loops of `compute_distance`. -/
def featureScan (prep : PreprocessedMeshData) (point : Vec3) : Res :=
  prep.triangles.foldl (triStep point)
    (prep.edges.foldl (edgeStep point)
      (prep.vertices.foldl (vertStep point) initialRes))

/-- `bevy` `Aabb`: center plus half-extents. -/
structure Aabb where
  center : Vec3
  halfExtents : Vec3
deriving DecidableEq, Repr

/-- `Aabb::min`. -/
def Aabb.min (aabb : Aabb) : Vec3 := aabb.center - aabb.halfExtents

/-- `Aabb::max`. -/
def Aabb.max (aabb : Aabb) : Vec3 := aabb.center + aabb.halfExtents

/-- The grid dimension `UVec3`. -/
structure UVec3 where
  x : ℕ
  y : ℕ
  z : ℕ
deriving DecidableEq, Repr

/-- `UVec3::as_vec3a`. -/
def UVec3.asVec3 (v : UVec3) : Vec3 := ⟨(v.x : ℚ), (v.y : ℚ), (v.z : ℚ)⟩

/-- Componentwise product of two vectors (glam `Vec3A * Vec3A`). -/
def Vec3.mulV (a b : Vec3) : Vec3 := ⟨a.x * b.x, a.y * b.y, a.z * b.z⟩

/-- Reduction of a `u32` arithmetic result to its wrapped value
(release-build semantics of overflowing `u32` operations). -/
def u32wrap (n : ℕ) : ℕ := n % 2 ^ 32

/-- The `u32` subtraction `n - 1` with release-build wrapping semantics:
`0 - 1` wraps to `2³² - 1` (a debug build panics there instead). -/
def u32sub1 (n : ℕ) : ℕ := (n + (2 ^ 32 - 1)) % 2 ^ 32

/-- The per-axis sample spacing
`aabb.half_extents * 2.0 / (dimension - 1).as_vec3a()`, with the `u32`
subtraction wrapping at zero.  Caveat: when a wrapped component of
`dimension - 1` is `0` (dimension exactly `1` on that axis) the source's
`f32` division produces `±inf` (or NaN for a zero extent), poisoning every
sample point with NaN; exact rationals cannot represent that (`x / 0 = 0`
here), so every theorem below about sampled points assumes at least `2`
samples per axis, where the division is by a nonzero value and the model
is exact. -/
def sdfScale (aabb : Aabb) (dimension : UVec3) : Vec3 :=
  ⟨aabb.halfExtents.x * 2 / ((u32sub1 dimension.x : ℕ) : ℚ),
   aabb.halfExtents.y * 2 / ((u32sub1 dimension.y : ℕ) : ℚ),
   aabb.halfExtents.z * 2 / ((u32sub1 dimension.z : ℕ) : ℚ)⟩

/-- The lattice point sampled at integer grid coordinates `(x, y, z)`:
`aabb.min() + scale * UVec3::new(x, y, z).as_vec3a()`. -/
def samplePoint (aabb : Aabb) (dimension : UVec3) (x y z : ℕ) : Vec3 :=
  aabb.min + (sdfScale aabb dimension).mulV (UVec3.mk x y z).asVec3

/-- All lattice points in loop order: `z` outermost, then `y`, then `x`
innermost. -/
def gridPoints (aabb : Aabb) (dimension : UVec3) : List Vec3 :=
  (List.range dimension.z).flatMap fun z =>
    (List.range dimension.y).flatMap fun y =>
      (List.range dimension.x).map fun x => samplePoint aabb dimension x y z

/-- The output loop over the preallocated chunk iterator: each sample
consumes one 4-byte chunk (`chunks.next().unwrap()`) and overwrites it with
the little-endian float encoding `enc`; `.error` models the `unwrap` panic
when the chunks run out, and chunks never consumed keep their zero fill. -/
def writeSamples (enc : ℚ → List ℕ) : List ℚ → List (List ℕ) →
    Except String (List (List ℕ))
  | [], chunks => .ok chunks
  | _ :: _, [] => .error "called Option::unwrap() on a None value"
  | s :: rest, _ :: chunks => do
    let tail ← writeSamples enc rest chunks
    .ok (enc s :: tail)

/-- `create_sdf_from_mesh_cpu`, parametrized by the 4-byte little-endian
`f32` encoding `enc` (`f32::to_le_bytes`), returning the raw image data
bytes.  The buffer size `4 * x * y * z` is computed in `u32` and wraps on
overflow (release semantics; debug builds panic at the multiplication), so
the buffer holds `u32wrap (4*x*y*z)` zero bytes and `as_chunks_mut::<4>`
yields `u32wrap (4*x*y*z) / 4` chunks plus an untouched remainder of
`u32wrap (4*x*y*z) % 4` bytes.  The chained `u32` products wrap at each
step, which agrees with the single final `% 2³²` taken here.  The topology
assertion and the panics reachable from preprocessing or from the chunk
`unwrap` are modelled as errors; timing and debug printing have no effect
on the data and are omitted, as is the wrapping of the bytes into an
`Image`. -/
def create_sdf_from_mesh_cpu (enc : ℚ → List ℕ) (mesh : Mesh) (aabb : Aabb)
    (dimension : UVec3) : Except String (List ℕ) :=
  match mesh.primitiveTopology with
  | .triangleList => do
    let preprocessed ← preprocess_mesh_for_sdf mesh none
    let samples := (gridPoints aabb dimension).map (compute_distance preprocessed)
    let chunks ← writeSamples enc samples
      (List.replicate (u32wrap (4 * dimension.x * dimension.y * dimension.z) / 4)
        (List.replicate 4 0))
    .ok (chunks.flatten ++
      List.replicate (u32wrap (4 * dimension.x * dimension.y * dimension.z) % 4) 0)
  | _ => .error "sdf generation can only work on TriangleLists"

/-- The clamped dot-product position of a query point along an edge: the
`intercept` of the edge tier. -/
def edgeIntercept (point v0 v1 : Vec3) : ℚ :=
  clampQ ((point - v0).dot (v1 - v0)) 0 (v1 - v0).lengthSquared

/-- The clamped candidate point on the segment:
`v0 + line * (intercept / line_len_sq)`. -/
def clampedPoint (point v0 v1 : Vec3) : Vec3 :=
  v0 + (v1 - v0).smul (edgeIntercept point v0 v1 / (v1 - v0).lengthSquared)

/-- The dead-zone condition exactly as the claim words it: the clamped
position lies within `0.1%` *of the squared edge length* of either
endpoint of the `[0, line_len_sq]` span. -/
def claimedDeadZone (point v0 v1 : Vec3) : Prop :=
  edgeIntercept point v0 v1 < (v1 - v0).lengthSquared * (1 / 1000) ∨
    (v1 - v0).lengthSquared - edgeIntercept point v0 v1 <
      (v1 - v0).lengthSquared * (1 / 1000)

instance (point v0 v1 : Vec3) : Decidable (claimedDeadZone point v0 v1) := by
  unfold claimedDeadZone; infer_instance

/-- The dead-zone condition as the code actually tests it: the *absolute*
constant `0.001` near `v0`, and `0.1%` of the squared edge length near
`v1`. -/
def codeDeadZone (point v0 v1 : Vec3) : Prop :=
  edgeIntercept point v0 v1 < 1 / 1000 ∨
    edgeIntercept point v0 v1 > (v1 - v0).lengthSquared * (999 / 1000)

instance (point v0 v1 : Vec3) : Decidable (codeDeadZone point v0 v1) := by
  unfold codeDeadZone; infer_instance

/-- C2 counterexample: on the edge from the origin to `(1000, 0, 0)` and
the query point `(1/100, 1, 0)`, the clamped position `10` lies well inside
the claimed relative dead-zone (`10 < 1000 = 0.1% · |line|²`), yet the code
does not skip the edge: it computes the squared distance `1` to the clamped
point and accepts it as the new best candidate. -/
theorem C2_counterexample :
    claimedDeadZone ⟨1/100, 1, 0⟩ ⟨0, 0, 0⟩ ⟨1000, 0, 0⟩ ∧
      edgeStep ⟨1/100, 1, 0⟩ initialRes ((⟨0, 0, 0⟩, ⟨1000, 0, 0⟩), ⟨0, 0, 1⟩) =
        ⟨1, ⟨0, 0, 1⟩, ⟨1/100, 0, 0⟩⟩ := by
  constructor
  · exact Or.inl (by norm_num [edgeIntercept, clampQ, Vec3.dot, Vec3.lengthSquared])
  · norm_num [edgeStep, initialRes, clampQ, Vec3.dot, Vec3.lengthSquared,
      Vec3.distanceSquared, Vec3.smul, f32MAX, Vec3.ext_iff]

/-- C2 (amended): an accumulated edge is skipped exactly when the clamped
position lies below the absolute constant `0.001` or above `0.999` times
the squared edge length; otherwise the squared edge length is positive and
the squared distance to the clamped point replaces the current best
candidate exactly when smaller, remembering the edge's pseudonormal. -/
theorem C2_edge_tier (point : Vec3) (best : Res) (v0 v1 n : Vec3) :
    (codeDeadZone point v0 v1 → edgeStep point best ((v0, v1), n) = best) ∧
      (¬codeDeadZone point v0 v1 →
        0 < (v1 - v0).lengthSquared ∧
          edgeStep point best ((v0, v1), n) =
            if point.distanceSquared (clampedPoint point v0 v1) < best.dist_sq then
              ⟨point.distanceSquared (clampedPoint point v0 v1), n,
                clampedPoint point v0 v1⟩
            else best) := by
  constructor
  · intro h
    unfold edgeStep
    rw [if_pos]
    exact h
  · intro h
    have hI : ¬(edgeIntercept point v0 v1 < 1 / 1000) := fun hc => h (Or.inl hc)
    have hIlow : (1 : ℚ) / 1000 ≤ edgeIntercept point v0 v1 := not_lt.mp hI
    have hpos : 0 < (v1 - v0).lengthSquared := by
      unfold edgeIntercept clampQ at hIlow
      split_ifs at hIlow with h₁ h₂
      · linarith
      · linarith
      · have hle : (point - v0).dot (v1 - v0) ≤ (v1 - v0).lengthSquared :=
          not_lt.mp h₂
        linarith
    refine ⟨hpos, ?_⟩
    unfold edgeStep
    rw [if_neg]
    · rfl
    · exact h

/-- C5: the sampler returns `+sqrt(best_sq)` when the direction from the
best accepted feature's nearest point to the query has nonnegative dot
product with the remembered normal, and `-sqrt(best_sq)` otherwise, where
the best candidate is the final state of the three-tier vertex/edge/
triangle scan. -/
theorem C5_sign_determination (prep : PreprocessedMeshData) (point : Vec3) :
    compute_distance prep point =
      (if 0 ≤ (point - (featureScan prep point).nearest).dot
          (featureScan prep point).norm then
        sqrtQ (featureScan prep point).dist_sq
      else
        -sqrtQ (featureScan prep point).dist_sq) := rfl

/-- Writing through the chunk iterator succeeds and produces exactly the
per-sample encodings when there are exactly as many chunks as samples. -/
theorem writeSamples_exact (enc : ℚ → List ℕ) :
    ∀ (samples : List ℚ) (chunks : List (List ℕ)),
      samples.length = chunks.length →
      writeSamples enc samples chunks = .ok (samples.map enc) := by
  intro samples
  induction samples with
  | nil =>
    intro chunks h
    cases chunks with
    | nil => rfl
    | cons c cs => simp at h
  | cons s rest ih =>
    intro chunks h
    cases chunks with
    | nil => simp at h
    | cons c cs =>
      simp only [List.length_cons, Nat.succ.injEq] at h
      simp only [writeSamples, ih cs h, List.map_cons]
      rfl

/-- The lattice has exactly `dimX * dimY * dimZ` points. -/
theorem gridPoints_length (aabb : Aabb) (dimension : UVec3) :
    (gridPoints aabb dimension).length =
      dimension.x * dimension.y * dimension.z := by
  unfold gridPoints
  simp [List.length_flatMap, Function.comp_def, List.map_const', List.sum_replicate]
  ring

/-- `Except.ok` bind reduction. -/
theorem exceptBind_ok {α β : Type} (a : α) (f : α → Except String β) :
    (Except.ok a >>= f) = f a := rfl

/-- Without `u32` overflow the wrapped byte count is exact, yields one
4-byte chunk per lattice point, and leaves no remainder bytes. -/
theorem u32wrap_buffer_exact (x y z : ℕ) (hwrap : 4 * x * y * z < 2 ^ 32) :
    u32wrap (4 * x * y * z) / 4 = x * y * z ∧ u32wrap (4 * x * y * z) % 4 = 0 := by
  unfold u32wrap
  rw [Nat.mod_eq_of_lt hwrap]
  constructor
  · rw [show 4 * x * y * z = 4 * (x * y * z) by ring,
      Nat.mul_div_cancel_left _ (by norm_num)]
  · rw [show 4 * x * y * z = 4 * (x * y * z) by ring, Nat.mul_mod_right]

/-- `create_sdf_from_mesh_cpu` on a preprocessable triangle-list mesh whose
`u32` byte count does not overflow returns the concatenation of the
per-sample encodings, in lattice order. -/
theorem create_sdf_ok (enc : ℚ → List ℕ) (mesh : Mesh) (aabb : Aabb)
    (dimension : UVec3) (prep : PreprocessedMeshData)
    (htopo : mesh.primitiveTopology = .triangleList)
    (hok : preprocess_mesh_for_sdf mesh none = .ok prep)
    (hwrap : 4 * dimension.x * dimension.y * dimension.z < 2 ^ 32) :
    create_sdf_from_mesh_cpu enc mesh aabb dimension =
      .ok (((gridPoints aabb dimension).map (compute_distance prep)).map enc).flatten := by
  obtain ⟨hdivq, hmodq⟩ :=
    u32wrap_buffer_exact dimension.x dimension.y dimension.z hwrap
  simp only [create_sdf_from_mesh_cpu, htopo]
  rw [hok, exceptBind_ok, hdivq, hmodq,
    writeSamples_exact enc _ _
      (by simp only [List.length_map, List.length_replicate, gridPoints_length]),
    exceptBind_ok, List.replicate_zero, List.append_nil]

/-- When the chunk supply runs short of the lattice (the `u32` byte count
wrapped), the first missing chunk makes the `unwrap` fail. -/
theorem create_wrap_error (enc : ℚ → List ℕ) (mesh : Mesh) (aabb : Aabb)
    (dimension : UVec3) (prep : PreprocessedMeshData)
    (htopo : mesh.primitiveTopology = .triangleList)
    (hok : preprocess_mesh_for_sdf mesh none = .ok prep)
    (hchunks : u32wrap (4 * dimension.x * dimension.y * dimension.z) / 4 = 0)
    (hpos : 0 < dimension.x * dimension.y * dimension.z) :
    create_sdf_from_mesh_cpu enc mesh aabb dimension =
      .error "called Option::unwrap() on a None value" := by
  simp only [create_sdf_from_mesh_cpu, htopo]
  rw [hok, exceptBind_ok, hchunks, List.replicate_zero]
  have hne : (gridPoints aabb dimension).map (compute_distance prep) ≠ [] := by
    intro h
    have hlen := congrArg List.length h
    rw [List.length_map, gridPoints_length] at hlen
    simp only [List.length_nil] at hlen
    omega
  obtain ⟨s, rest, hs⟩ := List.exists_cons_of_ne_nil hne
  rw [hs]
  rfl

/-- C9 counterexample: at grid dimensions `2048 × 1024 × 512` the `u32`
byte count `4·X·Y·Z` is exactly `2³²` and wraps to `0`, so the chunk
iterator is empty and the very first `chunks.next().unwrap()` fails (a
panic in the source) instead of filling a buffer. -/
theorem C9_counterexample :
    create_sdf_from_mesh_cpu (fun _ => [0, 0, 0, 0])
        ⟨.triangleList, some (.float32x3 []), none, none, none⟩
        ⟨⟨0, 0, 0⟩, ⟨1, 1, 1⟩⟩ ⟨2048, 1024, 512⟩ =
      .error "called Option::unwrap() on a None value" ∧
      ¬∃ data, create_sdf_from_mesh_cpu (fun _ => [0, 0, 0, 0])
        ⟨.triangleList, some (.float32x3 []), none, none, none⟩
        ⟨⟨0, 0, 0⟩, ⟨1, 1, 1⟩⟩ ⟨2048, 1024, 512⟩ = .ok data := by
  have herr := create_wrap_error (fun _ => [0, 0, 0, 0])
    ⟨.triangleList, some (.float32x3 []), none, none, none⟩
    ⟨⟨0, 0, 0⟩, ⟨1, 1, 1⟩⟩ ⟨2048, 1024, 512⟩ ⟨[], [], []⟩ rfl rfl
    (by norm_num [u32wrap]) (by norm_num)
  refine ⟨herr, ?_⟩
  rintro ⟨data, hdata⟩
  rw [herr] at hdata
  exact Except.noConfusion hdata

/-- C9 (amended): for every grid dimension whose `u32` byte count
`4·dimX·dimY·dimZ` does not overflow, the output buffer holds exactly that
many bytes, the lattice supplies exactly `dimX·dimY·dimZ` samples (one per
4-byte chunk, so the `unwrap` on the chunk iterator never fails and the
run returns `.ok`), and the returned data is precisely the concatenation
of the per-sample 4-byte encodings, each written exactly once. -/
theorem C9_buffer_exact (enc : ℚ → List ℕ) (mesh : Mesh) (aabb : Aabb)
    (dimension : UVec3) (prep : PreprocessedMeshData)
    (henc : ∀ q, (enc q).length = 4)
    (htopo : mesh.primitiveTopology = .triangleList)
    (hok : preprocess_mesh_for_sdf mesh none = .ok prep)
    (hwrap : 4 * dimension.x * dimension.y * dimension.z < 2 ^ 32) :
    (gridPoints aabb dimension).length =
        dimension.x * dimension.y * dimension.z ∧
      create_sdf_from_mesh_cpu enc mesh aabb dimension =
        .ok (((gridPoints aabb dimension).map (compute_distance prep)).map enc).flatten ∧
      (((gridPoints aabb dimension).map (compute_distance prep)).map enc).flatten.length =
        4 * (dimension.x * dimension.y * dimension.z) := by
  refine ⟨gridPoints_length _ _,
    create_sdf_ok enc mesh aabb dimension prep htopo hok hwrap, ?_⟩
  rw [List.length_flatten]
  simp only [List.map_map, Function.comp_def, henc]
  simp only [List.map_const', List.sum_replicate, smul_eq_mul, List.length_map,
    gridPoints_length]
  ring

/-- Witness for C9: the empty triangle-list mesh, a unit AABB, a `2³` grid
and a constant 4-byte encoding. -/
theorem C9_buffer_exact_witness :
    (gridPoints ⟨⟨0, 0, 0⟩, ⟨1, 1, 1⟩⟩ ⟨2, 2, 2⟩).length =
        (UVec3.mk 2 2 2).x * (UVec3.mk 2 2 2).y * (UVec3.mk 2 2 2).z ∧
      create_sdf_from_mesh_cpu (fun _ => [0, 0, 0, 0])
          ⟨.triangleList, some (.float32x3 []), none, none, none⟩
          ⟨⟨0, 0, 0⟩, ⟨1, 1, 1⟩⟩ ⟨2, 2, 2⟩ =
        .ok (((gridPoints ⟨⟨0, 0, 0⟩, ⟨1, 1, 1⟩⟩ ⟨2, 2, 2⟩).map
          (compute_distance ⟨[], [], []⟩)).map (fun _ => [0, 0, 0, 0])).flatten ∧
      (((gridPoints ⟨⟨0, 0, 0⟩, ⟨1, 1, 1⟩⟩ ⟨2, 2, 2⟩).map
          (compute_distance ⟨[], [], []⟩)).map (fun _ => [0, 0, 0, 0])).flatten.length =
        4 * ((UVec3.mk 2 2 2).x * (UVec3.mk 2 2 2).y * (UVec3.mk 2 2 2).z) :=
  C9_buffer_exact (fun _ => [0, 0, 0, 0])
    ⟨.triangleList, some (.float32x3 []), none, none, none⟩
    ⟨⟨0, 0, 0⟩, ⟨1, 1, 1⟩⟩ ⟨2, 2, 2⟩ ⟨[], [], []⟩ (fun _ => rfl) rfl rfl
    (by norm_num)

/-- `chunks_exact(3)` of fewer than three values is empty. -/
theorem chunks3_eq_nil {α : Type} {l : List α} (h : l.length < 3) :
    chunks3 l = [] := by
  cases l with
  | nil => rfl
  | cons a t =>
    cases t with
    | nil => rfl
    | cons b t2 =>
      cases t2 with
      | nil => rfl
      | cons c t3 => exact absurd h (by simp [List.length_cons])

/-- The idealized square root is never negative. -/
theorem sqrtQ_nonneg (q : ℚ) : 0 ≤ sqrtQ q := by
  unfold sqrtQ
  split_ifs with h
  · positivity
  · exact le_refl 0

/-- A mesh with fewer than three effective positions preprocesses to empty
maps and no triangles. -/
theorem preprocess_short (mesh : Mesh) (vs : List Vec3)
    (hvals : effectiveValues mesh none = .ok vs) (hlen : vs.length < 3) :
    preprocess_mesh_for_sdf mesh none = .ok ⟨[], [], []⟩ := by
  unfold preprocess_mesh_for_sdf
  rw [hvals, exceptBind_ok, chunks3_eq_nil hlen]
  rfl

/-- On empty preprocessed data every query keeps the initial candidate. -/
theorem featureScan_empty (point : Vec3) :
    featureScan ⟨[], [], []⟩ point = ⟨f32MAX, 0, 0⟩ := rfl

/-- On empty preprocessed data the sampler returns `sqrt(f32::MAX)`. -/
theorem compute_distance_empty (point : Vec3) :
    compute_distance ⟨[], [], []⟩ point = sqrtQ f32MAX := by
  unfold compute_distance
  simp only [List.foldl_nil]
  rw [if_pos]
  · rfl
  · simp [initialRes, Vec3.dot]

/-- C10 counterexample: an empty triangle-list mesh sampled on a
`2048 × 1024 × 512` grid produces no uniform `+sqrt(f32::MAX)` field at
all — the wrapped `u32` byte count empties the chunk iterator and the run
fails at the first `unwrap` (a panic in the source). -/
theorem C10_counterexample :
    effectiveValues ⟨.triangleList, some (.float32x3 []), none, none, none⟩ none =
        .ok [] ∧
      create_sdf_from_mesh_cpu (fun _ => [0, 0, 0, 0])
        ⟨.triangleList, some (.float32x3 []), none, none, none⟩
        ⟨⟨0, 0, 0⟩, ⟨2, 2, 2⟩⟩ ⟨2048, 1024, 512⟩ =
        .error "called Option::unwrap() on a None value" ∧
      ¬∃ data, create_sdf_from_mesh_cpu (fun _ => [0, 0, 0, 0])
        ⟨.triangleList, some (.float32x3 []), none, none, none⟩
        ⟨⟨0, 0, 0⟩, ⟨2, 2, 2⟩⟩ ⟨2048, 1024, 512⟩ = .ok data := by
  have herr := create_wrap_error (fun _ => [0, 0, 0, 0])
    ⟨.triangleList, some (.float32x3 []), none, none, none⟩
    ⟨⟨0, 0, 0⟩, ⟨2, 2, 2⟩⟩ ⟨2048, 1024, 512⟩ ⟨[], [], []⟩ rfl rfl
    (by norm_num [u32wrap]) (by norm_num)
  refine ⟨rfl, herr, ?_⟩
  rintro ⟨data, hdata⟩
  rw [herr] at hdata
  exact Except.noConfusion hdata

/-- C10 (amended): with fewer than three effective positions there is no
triangle: the scan keeps the initial candidate (`f32::MAX` squared
distance, zero normal, zero nearest point), the zero dot product
classifies every query point as outside, and — on grids with at least two
samples per axis (the source's spacing division by `dimension - 1` hits a
zero divisor at one sample, yielding `±inf`/NaN points outside the exact
model) and a non-overflowing `u32` byte count — every sample is
`+sqrt(f32::MAX)` and the output buffer is that one value's encoding
repeated over the whole lattice. -/
theorem C10_no_triangles (enc : ℚ → List ℕ) (mesh : Mesh) (aabb : Aabb)
    (dimension : UVec3) (vs : List Vec3)
    (htopo : mesh.primitiveTopology = .triangleList)
    (hvals : effectiveValues mesh none = .ok vs) (hlen : vs.length < 3)
    (hdx : 2 ≤ dimension.x) (hdy : 2 ≤ dimension.y) (hdz : 2 ≤ dimension.z)
    (hwrap : 4 * dimension.x * dimension.y * dimension.z < 2 ^ 32) :
    (∀ point : Vec3,
      featureScan ⟨[], [], []⟩ point = ⟨f32MAX, 0, 0⟩ ∧
        (point - (Res.mk f32MAX 0 0).nearest).dot (Res.mk f32MAX 0 0).norm = 0 ∧
        compute_distance ⟨[], [], []⟩ point = sqrtQ f32MAX ∧ 0 ≤ sqrtQ f32MAX) ∧
      preprocess_mesh_for_sdf mesh none = .ok ⟨[], [], []⟩ ∧
      create_sdf_from_mesh_cpu enc mesh aabb dimension =
        .ok (List.replicate (dimension.x * dimension.y * dimension.z)
          (enc (sqrtQ f32MAX))).flatten := by
  have hpre := preprocess_short mesh vs hvals hlen
  refine ⟨fun point => ⟨rfl, by simp [Vec3.dot], compute_distance_empty point,
    sqrtQ_nonneg _⟩, hpre, ?_⟩
  rw [create_sdf_ok enc mesh aabb dimension ⟨[], [], []⟩ htopo hpre hwrap]
  congr 1
  have hmapcd : (gridPoints aabb dimension).map (compute_distance ⟨[], [], []⟩) =
      List.replicate (dimension.x * dimension.y * dimension.z) (sqrtQ f32MAX) := by
    rw [List.map_congr_left fun p _ => compute_distance_empty p]
    rw [List.map_const', gridPoints_length]
  rw [hmapcd, List.map_replicate]

/-- Witness for C10: the empty triangle-list mesh on a `2³` grid with a
constant 4-byte encoding. -/
theorem C10_no_triangles_witness :
    (∀ point : Vec3,
      featureScan ⟨[], [], []⟩ point = ⟨f32MAX, 0, 0⟩ ∧
        (point - (Res.mk f32MAX 0 0).nearest).dot (Res.mk f32MAX 0 0).norm = 0 ∧
        compute_distance ⟨[], [], []⟩ point = sqrtQ f32MAX ∧ 0 ≤ sqrtQ f32MAX) ∧
      preprocess_mesh_for_sdf ⟨.triangleList, some (.float32x3 []), none, none, none⟩
          none = .ok ⟨[], [], []⟩ ∧
      create_sdf_from_mesh_cpu (fun _ => [0, 0, 0, 0])
          ⟨.triangleList, some (.float32x3 []), none, none, none⟩
          ⟨⟨0, 0, 0⟩, ⟨1, 1, 1⟩⟩ ⟨2, 2, 2⟩ =
        .ok (List.replicate
          ((UVec3.mk 2 2 2).x * (UVec3.mk 2 2 2).y * (UVec3.mk 2 2 2).z)
          ((fun _ : ℚ => [0, 0, 0, 0]) (sqrtQ f32MAX))).flatten :=
  C10_no_triangles (fun _ => [0, 0, 0, 0])
    ⟨.triangleList, some (.float32x3 []), none, none, none⟩
    ⟨⟨0, 0, 0⟩, ⟨1, 1, 1⟩⟩ ⟨2, 2, 2⟩ [] rfl rfl (by simp) (le_refl 2) (le_refl 2)
    (le_refl 2) (by norm_num)

/-- Indexing into a `flatMap` whose pieces all have length `m`. -/
theorem flatMap_get_piece {α β : Type} (f : α → List β) (m : ℕ) :
    ∀ (l : List α) (i j : ℕ), (∀ a ∈ l, (f a).length = m) → j < m →
      (l.flatMap f).get? (i * m + j) = (l.get? i).bind fun a => (f a).get? j := by
  intro l
  induction l with
  | nil => intro i j _ _; simp
  | cons a t ih =>
    intro i j hall hj
    rw [List.flatMap_cons]
    cases i with
    | zero =>
      rw [Nat.zero_mul, Nat.zero_add,
        List.get?_append (by rw [hall a (List.mem_cons_self a t)]; exact hj)]
      rfl
    | succ i' =>
      have hlen : (f a).length = m := hall a (List.mem_cons_self a t)
      have hge : (f a).length ≤ (i' + 1) * m + j := by
        rw [hlen, Nat.succ_mul]; omega
      rw [List.get?_append_right hge, hlen]
      have harith : (i' + 1) * m + j - m = i' * m + j := by
        rw [Nat.succ_mul]; omega
      rw [harith, ih i' j (fun b hb => hall b (List.mem_cons_of_mem a hb)) hj]
      rfl

/-- The lattice point list, indexed at the linear offset of `(x, y, z)`. -/
theorem gridPoints_get (aabb : Aabb) (dimension : UVec3) {x y z : ℕ}
    (hx : x < dimension.x) (hy : y < dimension.y) (hz : z < dimension.z) :
    (gridPoints aabb dimension).get?
        (z * (dimension.x * dimension.y) + (y * dimension.x + x)) =
      some (samplePoint aabb dimension x y z) := by
  unfold gridPoints
  have hinner : ∀ zc ∈ List.range dimension.z,
      ((List.range dimension.y).flatMap fun y =>
        (List.range dimension.x).map fun x =>
          samplePoint aabb dimension x y zc).length = dimension.x * dimension.y := by
    intro zc _
    simp [List.length_flatMap, Function.comp_def, List.map_const', List.sum_replicate]
    ring
  have hj : y * dimension.x + x < dimension.x * dimension.y := by
    have h1 : y * dimension.x + x < (y + 1) * dimension.x := by
      rw [Nat.succ_mul]; omega
    have h2 : (y + 1) * dimension.x ≤ dimension.y * dimension.x :=
      Nat.mul_le_mul_right _ hy
    calc y * dimension.x + x < (y + 1) * dimension.x := h1
      _ ≤ dimension.y * dimension.x := h2
      _ = dimension.x * dimension.y := Nat.mul_comm _ _
  rw [flatMap_get_piece _ (dimension.x * dimension.y) _ z (y * dimension.x + x)
    hinner hj]
  rw [List.get?_range hz]
  show ((List.range dimension.y).flatMap fun yc =>
    (List.range dimension.x).map fun xc =>
      samplePoint aabb dimension xc yc z).get? (y * dimension.x + x) =
    some (samplePoint aabb dimension x y z)
  have hxy : ∀ yc ∈ List.range dimension.y,
      ((List.range dimension.x).map fun xc =>
        samplePoint aabb dimension xc yc z).length = dimension.x := by
    intro yc _; simp
  rw [flatMap_get_piece _ dimension.x _ y x hxy hx, List.get?_range hy]
  show ((List.range dimension.x).map fun xc =>
    samplePoint aabb dimension xc y z).get? x = some (samplePoint aabb dimension x y z)
  rw [List.get?_map, List.get?_range hx]
  rfl

/-- Extracting the `i`-th 4-byte chunk from the flattening of a list of
4-byte chunks. -/
theorem flatten_extract {L : List (List ℕ)} (h4 : ∀ l ∈ L, l.length = 4) :
    ∀ (i : ℕ) (li : List ℕ), L.get? i = some li →
      (L.flatten.drop (4 * i)).take 4 = li := by
  induction L with
  | nil => intro i li h; simp at h
  | cons a t ih =>
    intro i li h
    cases i with
    | zero =>
      have h0 : a = li := by simpa using h
      rw [List.flatten_cons, Nat.mul_zero, List.drop_zero, ← h0,
        ← h4 a (List.mem_cons_self a t), List.take_left]
    | succ i' =>
      rw [List.flatten_cons]
      have harith : 4 * (i' + 1) = a.length + 4 * i' := by
        rw [h4 a (List.mem_cons_self a t)]; ring
      rw [harith, List.drop_append (4 * i')]
      exact ih (fun l hl => h4 l (List.mem_cons_of_mem a hl)) i' li
        (by simpa using h)

/-- Without wrapping, the `u32` decrement is the arithmetic one. -/
theorem u32sub1_eq_sub {n : ℕ} (h1 : 1 ≤ n) (h2 : n ≤ 2 ^ 32) :
    u32sub1 n = n - 1 := by
  unfold u32sub1
  omega

/-- A non-overflowing byte count bounds each axis within `u32` range. -/
theorem dims_le_of_nowrap {x y z : ℕ} (hx : 2 ≤ x) (hy : 2 ≤ y) (hz : 2 ≤ z)
    (hw : 4 * x * y * z < 2 ^ 32) : x ≤ 2 ^ 32 ∧ y ≤ 2 ^ 32 ∧ z ≤ 2 ^ 32 := by
  have hxy : 0 < 4 * x * y := Nat.mul_pos (by omega) (by omega)
  refine ⟨?_, ?_, ?_⟩
  · have h1 : x ≤ 4 * x * y * z := by
      calc x ≤ 4 * x := Nat.le_mul_of_pos_left x (by norm_num)
        _ ≤ 4 * x * y := Nat.le_mul_of_pos_right _ (by omega)
        _ ≤ 4 * x * y * z := Nat.le_mul_of_pos_right _ (by omega)
    omega
  · have h1 : y ≤ 4 * x * y * z := by
      calc y ≤ 4 * x * y := Nat.le_mul_of_pos_left y (by omega)
        _ ≤ 4 * x * y * z := Nat.le_mul_of_pos_right _ (by omega)
    omega
  · have h1 : z ≤ 4 * x * y * z := Nat.le_mul_of_pos_left z hxy
    omega

/-- C4 counterexample: at grid dimensions `1024 × 1024 × 1024` — every
axis at least `2` — the `u32` byte count `4·X·Y·Z` is exactly `2³²` and
wraps to `0`, so the run fails at the first chunk `unwrap` (a panic in the
source) and no image data is produced at any linear offset. -/
theorem C4_counterexample :
    2 ≤ (UVec3.mk 1024 1024 1024).x ∧ 2 ≤ (UVec3.mk 1024 1024 1024).y ∧
      2 ≤ (UVec3.mk 1024 1024 1024).z ∧
      create_sdf_from_mesh_cpu (fun _ => [0, 0, 0, 0])
        ⟨.triangleList, some (.float32x3 []), none, none, none⟩
        ⟨⟨0, 0, 0⟩, ⟨1, 1, 1⟩⟩ ⟨1024, 1024, 1024⟩ =
        .error "called Option::unwrap() on a None value" ∧
      ¬∃ data, create_sdf_from_mesh_cpu (fun _ => [0, 0, 0, 0])
        ⟨.triangleList, some (.float32x3 []), none, none, none⟩
        ⟨⟨0, 0, 0⟩, ⟨1, 1, 1⟩⟩ ⟨1024, 1024, 1024⟩ = .ok data := by
  have herr := create_wrap_error (fun _ => [0, 0, 0, 0])
    ⟨.triangleList, some (.float32x3 []), none, none, none⟩
    ⟨⟨0, 0, 0⟩, ⟨1, 1, 1⟩⟩ ⟨1024, 1024, 1024⟩ ⟨[], [], []⟩ rfl rfl
    (by norm_num [u32wrap]) (by norm_num)
  refine ⟨by norm_num, by norm_num, by norm_num, herr, ?_⟩
  rintro ⟨data, hdata⟩
  rw [herr] at hdata
  exact Except.noConfusion hdata

/-- C4 (amended): node-centred sampling, on grids whose `u32` byte count
`4·dimX·dimY·dimZ` does not overflow (otherwise the buffer wraps short and
the run panics at the chunk `unwrap`; see the counterexample).  The
per-axis spacing is the AABB span divided by `(dimension − 1)`, the first
and last lattice points on each axis lie exactly on the AABB's corners,
and the 4 bytes at linear offset `4 * (z*dimX*dimY + y*dimX + x)` of the
output data are the encoding of the sampled distance at
`aabb.min + spacing * (x, y, z)` (lattice iterated with `z` outermost,
`y` middle, `x` innermost). -/
theorem C4_grid_layout (enc : ℚ → List ℕ) (mesh : Mesh) (aabb : Aabb)
    (dimension : UVec3) (prep : PreprocessedMeshData)
    (henc : ∀ q, (enc q).length = 4)
    (htopo : mesh.primitiveTopology = .triangleList)
    (hok : preprocess_mesh_for_sdf mesh none = .ok prep)
    (hdx : 2 ≤ dimension.x) (hdy : 2 ≤ dimension.y) (hdz : 2 ≤ dimension.z)
    (hwrap : 4 * dimension.x * dimension.y * dimension.z < 2 ^ 32) :
    sdfScale aabb dimension =
        ⟨(aabb.max.x - aabb.min.x) / ((dimension.x - 1 : ℕ) : ℚ),
         (aabb.max.y - aabb.min.y) / ((dimension.y - 1 : ℕ) : ℚ),
         (aabb.max.z - aabb.min.z) / ((dimension.z - 1 : ℕ) : ℚ)⟩ ∧
      samplePoint aabb dimension 0 0 0 = aabb.min ∧
      samplePoint aabb dimension (dimension.x - 1) (dimension.y - 1)
          (dimension.z - 1) = aabb.max ∧
      ∀ x y z : ℕ, x < dimension.x → y < dimension.y → z < dimension.z →
        ∃ data, create_sdf_from_mesh_cpu enc mesh aabb dimension = .ok data ∧
          (data.drop
            (4 * (z * dimension.x * dimension.y + y * dimension.x + x))).take 4 =
            enc (compute_distance prep (samplePoint aabb dimension x y z)) := by
  obtain ⟨hxb, hyb, hzb⟩ := dims_le_of_nowrap hdx hdy hdz hwrap
  have hsx : u32sub1 dimension.x = dimension.x - 1 := u32sub1_eq_sub (by omega) hxb
  have hsy : u32sub1 dimension.y = dimension.y - 1 := u32sub1_eq_sub (by omega) hyb
  have hsz : u32sub1 dimension.z = dimension.z - 1 := u32sub1_eq_sub (by omega) hzb
  refine ⟨?_, ?_, ?_, ?_⟩
  · ext <;> simp [sdfScale, hsx, hsy, hsz, Aabb.max, Aabb.min] <;> ring
  · ext <;> simp [samplePoint, Vec3.mulV, UVec3.asVec3, sdfScale, Aabb.min]
  · have hx1 : ((dimension.x : ℚ) - 1) ≠ 0 :=
      sub_ne_zero.mpr (ne_of_gt (by exact_mod_cast (by omega : 1 < dimension.x)))
    have hy1 : ((dimension.y : ℚ) - 1) ≠ 0 :=
      sub_ne_zero.mpr (ne_of_gt (by exact_mod_cast (by omega : 1 < dimension.y)))
    have hz1 : ((dimension.z : ℚ) - 1) ≠ 0 :=
      sub_ne_zero.mpr (ne_of_gt (by exact_mod_cast (by omega : 1 < dimension.z)))
    ext <;> simp [samplePoint, Vec3.mulV, UVec3.asVec3, sdfScale, hsx, hsy, hsz,
        Aabb.min, Aabb.max] <;>
      [field_simp [hx1]; field_simp [hy1]; field_simp [hz1]] <;> ring
  · intro x y z hx hy hz
    refine ⟨_, create_sdf_ok enc mesh aabb dimension prep htopo hok hwrap, ?_⟩
    have hidx : z * dimension.x * dimension.y + y * dimension.x + x =
        z * (dimension.x * dimension.y) + (y * dimension.x + x) := by ring
    rw [hidx]
    refine flatten_extract ?_ _ _ ?_
    · intro l hl
      simp only [List.mem_map] at hl
      obtain ⟨q, _, rfl⟩ := hl
      exact henc q
    · rw [List.get?_map, List.get?_map, gridPoints_get aabb dimension hx hy hz]
      rfl

/-- Witness for C4: the empty triangle-list mesh, the unit AABB at the
origin, a `2³` grid and a constant 4-byte encoding. -/
theorem C4_grid_layout_witness :
    sdfScale ⟨⟨0, 0, 0⟩, ⟨1, 1, 1⟩⟩ ⟨2, 2, 2⟩ =
        ⟨((Aabb.mk ⟨0, 0, 0⟩ ⟨1, 1, 1⟩).max.x - (Aabb.mk ⟨0, 0, 0⟩ ⟨1, 1, 1⟩).min.x) /
            (((UVec3.mk 2 2 2).x - 1 : ℕ) : ℚ),
         ((Aabb.mk ⟨0, 0, 0⟩ ⟨1, 1, 1⟩).max.y - (Aabb.mk ⟨0, 0, 0⟩ ⟨1, 1, 1⟩).min.y) /
            (((UVec3.mk 2 2 2).y - 1 : ℕ) : ℚ),
         ((Aabb.mk ⟨0, 0, 0⟩ ⟨1, 1, 1⟩).max.z - (Aabb.mk ⟨0, 0, 0⟩ ⟨1, 1, 1⟩).min.z) /
            (((UVec3.mk 2 2 2).z - 1 : ℕ) : ℚ)⟩ ∧
      samplePoint ⟨⟨0, 0, 0⟩, ⟨1, 1, 1⟩⟩ ⟨2, 2, 2⟩ 0 0 0 =
        (Aabb.mk ⟨0, 0, 0⟩ ⟨1, 1, 1⟩).min ∧
      samplePoint ⟨⟨0, 0, 0⟩, ⟨1, 1, 1⟩⟩ ⟨2, 2, 2⟩ ((UVec3.mk 2 2 2).x - 1)
          ((UVec3.mk 2 2 2).y - 1) ((UVec3.mk 2 2 2).z - 1) =
        (Aabb.mk ⟨0, 0, 0⟩ ⟨1, 1, 1⟩).max ∧
      ∀ x y z : ℕ, x < (UVec3.mk 2 2 2).x → y < (UVec3.mk 2 2 2).y →
        z < (UVec3.mk 2 2 2).z →
        ∃ data, create_sdf_from_mesh_cpu (fun _ => [0, 0, 0, 0])
            ⟨.triangleList, some (.float32x3 []), none, none, none⟩
            ⟨⟨0, 0, 0⟩, ⟨1, 1, 1⟩⟩ ⟨2, 2, 2⟩ = .ok data ∧
          (data.drop
            (4 * (z * (UVec3.mk 2 2 2).x * (UVec3.mk 2 2 2).y +
              y * (UVec3.mk 2 2 2).x + x))).take 4 =
            (fun _ : ℚ => [0, 0, 0, 0])
              (compute_distance ⟨[], [], []⟩
                (samplePoint ⟨⟨0, 0, 0⟩, ⟨1, 1, 1⟩⟩ ⟨2, 2, 2⟩ x y z)) :=
  C4_grid_layout (fun _ => [0, 0, 0, 0])
    ⟨.triangleList, some (.float32x3 []), none, none, none⟩
    ⟨⟨0, 0, 0⟩, ⟨1, 1, 1⟩⟩ ⟨2, 2, 2⟩ ⟨[], [], []⟩ (fun _ => rfl) rfl rfl
    (le_refl 2) (le_refl 2) (le_refl 2) (by norm_num)

/-- `sort3` returns one of the six permutations of its arguments. -/
theorem sort3_cases (a b c : Vec3) :
    sort3 a b c = (a, b, c) ∨ sort3 a b c = (a, c, b) ∨ sort3 a b c = (b, a, c) ∨
      sort3 a b c = (b, c, a) ∨ sort3 a b c = (c, a, b) ∨ sort3 a b c = (c, b, a) := by
  unfold sort3
  split_ifs <;> tauto

theorem cmpV_trichotomy (a b : Vec3) :
    cmpV a b = .lt ∨ cmpV a b = .eq ∨ cmpV a b = .gt := by
  cases cmpV a b <;> simp

theorem cmpV_ne_gt_of_lt {a b : Vec3} (h : cmpV a b = .lt) : cmpV a b ≠ .gt := by
  rw [h]; simp

theorem cmpV_ne_gt_of_not_lt {a b : Vec3} (h : ¬cmpV b a = .lt) : cmpV a b ≠ .gt :=
  fun hc => h (cmpV_gt_iff.mp hc)

/-- From a failed strict comparison, either the reverse strict comparison
holds or the values are equal. -/
theorem cmpV_lt_or_eq_of_not_lt {a b : Vec3} (h : ¬cmpV b a = .lt) :
    cmpV a b = .lt ∨ a = b := by
  rcases cmpV_trichotomy a b with h' | h' | h'
  · exact Or.inl h'
  · exact Or.inr (cmpV_eq_iff.mp h')
  · exact absurd (cmpV_gt_iff.mp h') h

/-- The canonicalized corners are weakly increasing under the `OrderedVec`
order. -/
theorem sort3_sorted (a b c : Vec3) :
    cmpV (sort3 a b c).1 (sort3 a b c).2.1 ≠ .gt ∧
      cmpV (sort3 a b c).2.1 (sort3 a b c).2.2 ≠ .gt ∧
      cmpV (sort3 a b c).1 (sort3 a b c).2.2 ≠ .gt := by
  unfold sort3
  by_cases h1 : cmpV b a = .lt
  · rw [if_pos h1]
    by_cases h2 : cmpV c b = .lt
    · rw [if_pos h2]
      exact ⟨cmpV_ne_gt_of_lt h2, cmpV_ne_gt_of_lt h1,
        cmpV_ne_gt_of_lt (cmpV_lt_trans h2 h1)⟩
    · rw [if_neg h2]
      by_cases h3 : cmpV c a = .lt
      · rw [if_pos h3]
        exact ⟨cmpV_ne_gt_of_not_lt h2, cmpV_ne_gt_of_lt h3, cmpV_ne_gt_of_lt h1⟩
      · rw [if_neg h3]
        refine ⟨cmpV_ne_gt_of_lt h1, cmpV_ne_gt_of_not_lt h3, cmpV_ne_gt_of_not_lt h2⟩
  · rw [if_neg h1]
    by_cases h4 : cmpV c a = .lt
    · rw [if_pos h4]
      refine ⟨cmpV_ne_gt_of_lt h4, cmpV_ne_gt_of_not_lt h1, ?_⟩
      rcases cmpV_lt_or_eq_of_not_lt h1 with h' | h'
      · exact cmpV_ne_gt_of_lt (cmpV_lt_trans h4 h')
      · rw [← h']
        exact cmpV_ne_gt_of_lt h4
    · rw [if_neg h4]
      by_cases h5 : cmpV c b = .lt
      · rw [if_pos h5]
        exact ⟨cmpV_ne_gt_of_not_lt h4, cmpV_ne_gt_of_lt h5, cmpV_ne_gt_of_not_lt h1⟩
      · rw [if_neg h5]
        exact ⟨cmpV_ne_gt_of_not_lt h1, cmpV_ne_gt_of_not_lt h5, cmpV_ne_gt_of_not_lt h4⟩

theorem lookupA_insert3 {κ : Type} {cmp : κ → κ → Ordering}
    (heq : ∀ a b, cmp a b = .eq ↔ a = b)
    (hgt : ∀ a b, cmp a b = .gt ↔ cmp b a = .lt)
    (htr : ∀ {a b c}, cmp a b = .lt → cmp b c = .lt → cmp a c = .lt)
    (k₁ k₂ k₃ : κ) (v₁ v₂ v₃ : Vec3) {m : List (κ × Vec3)} (hm : SortedBy cmp m)
    (h12 : k₁ ≠ k₂) (h13 : k₁ ≠ k₃) (h23 : k₂ ≠ k₃) :
    (lookupA cmp k₁ (insertAdd cmp k₃ v₃ (insertAdd cmp k₂ v₂ (insertAdd cmp k₁ v₁ m))) =
        some ((lookupA cmp k₁ m).getD 0 + v₁) ∧
      lookupA cmp k₂ (insertAdd cmp k₃ v₃ (insertAdd cmp k₂ v₂ (insertAdd cmp k₁ v₁ m))) =
        some ((lookupA cmp k₂ m).getD 0 + v₂) ∧
      lookupA cmp k₃ (insertAdd cmp k₃ v₃ (insertAdd cmp k₂ v₂ (insertAdd cmp k₁ v₁ m))) =
        some ((lookupA cmp k₃ m).getD 0 + v₃)) ∧
      ∀ k, k ≠ k₁ → k ≠ k₂ → k ≠ k₃ →
        lookupA cmp k (insertAdd cmp k₃ v₃ (insertAdd cmp k₂ v₂ (insertAdd cmp k₁ v₁ m))) =
          lookupA cmp k m := by
  have s1 : SortedBy cmp (insertAdd cmp k₁ v₁ m) := sortedBy_insertAdd hgt htr _ _ hm
  have s2 : SortedBy cmp (insertAdd cmp k₂ v₂ (insertAdd cmp k₁ v₁ m)) :=
    sortedBy_insertAdd hgt htr _ _ s1
  refine ⟨⟨?_, ?_, ?_⟩, ?_⟩
  · rw [lookupA_insertAdd_ne heq h13 _, lookupA_insertAdd_ne heq h12 _,
      lookupA_insertAdd_self heq htr _ _ hm]
  · rw [lookupA_insertAdd_ne heq h23 _, lookupA_insertAdd_self heq htr _ _ s1,
      lookupA_insertAdd_ne heq (Ne.symm h12) _]
  · rw [lookupA_insertAdd_self heq htr _ _ s2,
      lookupA_insertAdd_ne heq (Ne.symm h23) _, lookupA_insertAdd_ne heq (Ne.symm h13) _]
  · intro k hk1 hk2 hk3
    rw [lookupA_insertAdd_ne heq hk3 _, lookupA_insertAdd_ne heq hk2 _,
      lookupA_insertAdd_ne heq hk1 _]

/-- C6: a processed triangle with pairwise-distinct corner positions adds
exactly one angle-weighted term `normal * angle` to each of its three
vertex entries, exactly one unweighted `normal` term to each of its three
canonical edge-pair entries, and touches no other entry of either map. -/
theorem C6_one_term_per_feature (t : Vec3 × Vec3 × Vec3)
    (vm : List (Vec3 × Vec3)) (em : List ((Vec3 × Vec3) × Vec3))
    (hvm : SortedBy cmpV vm) (hem : SortedBy cmpE em)
    (h12 : t.1 ≠ t.2.1) (h13 : t.1 ≠ t.2.2) (h23 : t.2.1 ≠ t.2.2) :
    (lookupA cmpV (sortedCorners t).1 (addTriV vm t) =
        some ((lookupA cmpV (sortedCorners t).1 vm).getD 0 +
          (triNormal t).smul (cornerAngles t).1) ∧
      lookupA cmpV (sortedCorners t).2.1 (addTriV vm t) =
        some ((lookupA cmpV (sortedCorners t).2.1 vm).getD 0 +
          (triNormal t).smul (cornerAngles t).2.1) ∧
      lookupA cmpV (sortedCorners t).2.2 (addTriV vm t) =
        some ((lookupA cmpV (sortedCorners t).2.2 vm).getD 0 +
          (triNormal t).smul (cornerAngles t).2.2)) ∧
      (∀ k : Vec3, k ≠ (sortedCorners t).1 → k ≠ (sortedCorners t).2.1 →
        k ≠ (sortedCorners t).2.2 → lookupA cmpV k (addTriV vm t) = lookupA cmpV k vm) ∧
      (lookupA cmpE ((sortedCorners t).1, (sortedCorners t).2.1) (addTriE em t) =
        some ((lookupA cmpE ((sortedCorners t).1, (sortedCorners t).2.1) em).getD 0 +
          triNormal t) ∧
      lookupA cmpE ((sortedCorners t).1, (sortedCorners t).2.2) (addTriE em t) =
        some ((lookupA cmpE ((sortedCorners t).1, (sortedCorners t).2.2) em).getD 0 +
          triNormal t) ∧
      lookupA cmpE ((sortedCorners t).2.1, (sortedCorners t).2.2) (addTriE em t) =
        some ((lookupA cmpE ((sortedCorners t).2.1, (sortedCorners t).2.2) em).getD 0 +
          triNormal t)) ∧
      ∀ e : Vec3 × Vec3, e ≠ ((sortedCorners t).1, (sortedCorners t).2.1) →
        e ≠ ((sortedCorners t).1, (sortedCorners t).2.2) →
        e ≠ ((sortedCorners t).2.1, (sortedCorners t).2.2) →
        lookupA cmpE e (addTriE em t) = lookupA cmpE e em := by
  have hperm := sort3_cases t.1 t.2.1 t.2.2
  have hs12 : (sortedCorners t).1 ≠ (sortedCorners t).2.1 := by
    unfold sortedCorners
    rcases hperm with h | h | h | h | h | h <;> rw [h] <;> first
      | exact h12 | exact h13 | exact h23 | exact (Ne.symm h12)
      | exact (Ne.symm h13) | exact (Ne.symm h23)
  have hs13 : (sortedCorners t).1 ≠ (sortedCorners t).2.2 := by
    unfold sortedCorners
    rcases hperm with h | h | h | h | h | h <;> rw [h] <;> first
      | exact h12 | exact h13 | exact h23 | exact (Ne.symm h12)
      | exact (Ne.symm h13) | exact (Ne.symm h23)
  have hs23 : (sortedCorners t).2.1 ≠ (sortedCorners t).2.2 := by
    unfold sortedCorners
    rcases hperm with h | h | h | h | h | h <;> rw [h] <;> first
      | exact h12 | exact h13 | exact h23 | exact (Ne.symm h12)
      | exact (Ne.symm h13) | exact (Ne.symm h23)
  have he12 : ((sortedCorners t).1, (sortedCorners t).2.1) ≠
      ((sortedCorners t).1, (sortedCorners t).2.2) := by
    intro hc; exact hs23 (congrArg Prod.snd hc)
  have he13 : ((sortedCorners t).1, (sortedCorners t).2.1) ≠
      ((sortedCorners t).2.1, (sortedCorners t).2.2) := by
    intro hc; exact hs12 (congrArg Prod.fst hc)
  have he23 : ((sortedCorners t).1, (sortedCorners t).2.2) ≠
      ((sortedCorners t).2.1, (sortedCorners t).2.2) := by
    intro hc; exact hs12 (congrArg Prod.fst hc)
  have hv := lookupA_insert3 (κ := Vec3) cmpV_law_eq
    cmpV_law_gt cmpV_law_tr
    (sortedCorners t).1 (sortedCorners t).2.1 (sortedCorners t).2.2
    ((triNormal t).smul (cornerAngles t).1) ((triNormal t).smul (cornerAngles t).2.1)
    ((triNormal t).smul (cornerAngles t).2.2) hvm hs12 hs13 hs23
  have he := lookupA_insert3 (κ := Vec3 × Vec3) cmpE_law_eq
    cmpE_law_gt cmpE_law_tr
    ((sortedCorners t).1, (sortedCorners t).2.1)
    ((sortedCorners t).1, (sortedCorners t).2.2)
    ((sortedCorners t).2.1, (sortedCorners t).2.2)
    (triNormal t) (triNormal t) (triNormal t) hem he12 he13 he23
  exact ⟨hv.1, hv.2, he.1, he.2⟩

/-- A concrete right triangle used as witness input. -/
def triEx : Vec3 × Vec3 × Vec3 := (⟨0, 0, 0⟩, ⟨1, 0, 0⟩, ⟨0, 1, 0⟩)

/-- Witness for C6: the concrete triangle `triEx` processed on empty maps. -/
theorem C6_one_term_per_feature_witness :
    (lookupA cmpV (sortedCorners triEx).1 (addTriV [] triEx) =
        some ((lookupA cmpV (sortedCorners triEx).1 []).getD 0 +
          (triNormal triEx).smul (cornerAngles triEx).1) ∧
      lookupA cmpV (sortedCorners triEx).2.1 (addTriV [] triEx) =
        some ((lookupA cmpV (sortedCorners triEx).2.1 []).getD 0 +
          (triNormal triEx).smul (cornerAngles triEx).2.1) ∧
      lookupA cmpV (sortedCorners triEx).2.2 (addTriV [] triEx) =
        some ((lookupA cmpV (sortedCorners triEx).2.2 []).getD 0 +
          (triNormal triEx).smul (cornerAngles triEx).2.2)) ∧
      (∀ k : Vec3, k ≠ (sortedCorners triEx).1 → k ≠ (sortedCorners triEx).2.1 →
        k ≠ (sortedCorners triEx).2.2 →
        lookupA cmpV k (addTriV [] triEx) = lookupA cmpV k []) ∧
      (lookupA cmpE ((sortedCorners triEx).1, (sortedCorners triEx).2.1)
          (addTriE [] triEx) =
        some ((lookupA cmpE ((sortedCorners triEx).1, (sortedCorners triEx).2.1)
          []).getD 0 + triNormal triEx) ∧
      lookupA cmpE ((sortedCorners triEx).1, (sortedCorners triEx).2.2)
          (addTriE [] triEx) =
        some ((lookupA cmpE ((sortedCorners triEx).1, (sortedCorners triEx).2.2)
          []).getD 0 + triNormal triEx) ∧
      lookupA cmpE ((sortedCorners triEx).2.1, (sortedCorners triEx).2.2)
          (addTriE [] triEx) =
        some ((lookupA cmpE ((sortedCorners triEx).2.1, (sortedCorners triEx).2.2)
          []).getD 0 + triNormal triEx)) ∧
      ∀ e : Vec3 × Vec3, e ≠ ((sortedCorners triEx).1, (sortedCorners triEx).2.1) →
        e ≠ ((sortedCorners triEx).1, (sortedCorners triEx).2.2) →
        e ≠ ((sortedCorners triEx).2.1, (sortedCorners triEx).2.2) →
        lookupA cmpE e (addTriE [] triEx) = lookupA cmpE e [] :=
  C6_one_term_per_feature triEx [] [] List.Pairwise.nil List.Pairwise.nil
    (by simp [triEx, Vec3.ext_iff]) (by simp [triEx, Vec3.ext_iff])
    (by simp [triEx, Vec3.ext_iff])

/-- `Except.error` bind reduction. -/
theorem exceptBind_error {α β : Type} (e : String) (f : α → Except String β) :
    ((Except.error e : Except String α) >>= f) = Except.error e := rfl

theorem insertAdd_key_prop {κ : Type} {cmp : κ → κ → Ordering} {P : κ → Prop}
    {k : κ} {v : Vec3} {m : List (κ × Vec3)}
    (hins : P k) (hm : ∀ q ∈ m, P q.1) :
    ∀ q ∈ insertAdd cmp k v m, P q.1 := by
  intro q hq
  rcases mem_insertAdd_key hq with h | h
  · rw [h]; exact hins
  · rcases List.mem_map.mp h with ⟨q', hq', hqeq⟩
    rw [← hqeq]; exact hm q' hq'

theorem sortedBy_keys_nodup {κ : Type} {cmp : κ → κ → Ordering}
    (heq : ∀ a b, cmp a b = .eq ↔ a = b)
    {m : List (κ × Vec3)} (hm : SortedBy cmp m) : (m.map Prod.fst).Nodup := by
  refine List.Pairwise.map Prod.fst ?_ hm
  intro q r h hc
  rw [hc] at h
  have : cmp r.1 r.1 = .eq := (heq r.1 r.1).mpr rfl
  rw [this] at h
  exact Ordering.noConfusion h

/-- One loop iteration keeps the vertex map sorted. -/
theorem addTriV_sorted {m : List (Vec3 × Vec3)} (hm : SortedBy cmpV m)
    (t : Vec3 × Vec3 × Vec3) : SortedBy cmpV (addTriV m t) := by
  unfold addTriV
  exact sortedBy_insertAdd cmpV_law_gt cmpV_law_tr _ _
    (sortedBy_insertAdd cmpV_law_gt cmpV_law_tr _ _
      (sortedBy_insertAdd cmpV_law_gt cmpV_law_tr
        _ _ hm))

/-- One loop iteration keeps the edge map sorted. -/
theorem addTriE_sorted {m : List ((Vec3 × Vec3) × Vec3)} (hm : SortedBy cmpE m)
    (t : Vec3 × Vec3 × Vec3) : SortedBy cmpE (addTriE m t) := by
  unfold addTriE
  exact sortedBy_insertAdd cmpE_law_gt cmpE_law_tr _ _
    (sortedBy_insertAdd cmpE_law_gt cmpE_law_tr _ _
      (sortedBy_insertAdd cmpE_law_gt cmpE_law_tr
        _ _ hm))

/-- Inserting an ordered edge key preserves the first-≤-second property. -/
theorem insertAdd_edge_le {k : Vec3 × Vec3} {v : Vec3}
    {m : List ((Vec3 × Vec3) × Vec3)} (hins : cmpV k.1 k.2 ≠ .gt)
    (hm : ∀ q ∈ m, cmpV q.1.1 q.1.2 ≠ .gt) :
    ∀ q ∈ insertAdd cmpE k v m, cmpV q.1.1 q.1.2 ≠ .gt := by
  intro q hq
  rcases mem_insertAdd_key hq with h | h
  · rw [h]; exact hins
  · rcases List.mem_map.mp h with ⟨q', hq', hqeq⟩
    rw [← hqeq]; exact hm q' hq'

/-- One loop iteration keeps every edge key's first endpoint ≤ its second. -/
theorem addTriE_key_le {m : List ((Vec3 × Vec3) × Vec3)}
    (hm : ∀ q ∈ m, cmpV q.1.1 q.1.2 ≠ .gt) (t : Vec3 × Vec3 × Vec3) :
    ∀ q ∈ addTriE m t, cmpV q.1.1 q.1.2 ≠ .gt := by
  have hs := sort3_sorted t.1 t.2.1 t.2.2
  unfold addTriE
  exact insertAdd_edge_le hs.2.1
    (insertAdd_edge_le hs.2.2 (insertAdd_edge_le hs.1 hm))

/-- The preprocessing loop preserves sortedness of both maps and the
first-≤-second invariant of the edge keys. -/
theorem foldl_processTri_inv (l : List (Vec3 × Vec3 × Vec3)) :
    ∀ s : PreState, SortedBy cmpV s.vmap → SortedBy cmpE s.emap →
      (∀ q ∈ s.emap, cmpV q.1.1 q.1.2 ≠ .gt) →
      SortedBy cmpV (l.foldl processTri s).vmap ∧
        SortedBy cmpE (l.foldl processTri s).emap ∧
        ∀ q ∈ (l.foldl processTri s).emap, cmpV q.1.1 q.1.2 ≠ .gt := by
  induction l with
  | nil => exact fun s h1 h2 h3 => ⟨h1, h2, h3⟩
  | cons t rest ih =>
    intro s h1 h2 h3
    rw [List.foldl_cons]
    exact ih (processTri s t) (addTriV_sorted h1 t) (addTriE_sorted h2 t)
      (addTriE_key_le h3 t)

/-- C8: the returned vertex list is strictly sorted (hence has no duplicate
positions), the edge list is strictly sorted under the induced pair order
(hence has no duplicate endpoint pairs), and every edge key's first
endpoint precedes or equals its second endpoint, so each shared feature
has exactly one record. -/
theorem C8_maps_sorted (mesh : Mesh) (joints : Option (List Mat4))
    (p : PreprocessedMeshData)
    (hok : preprocess_mesh_for_sdf mesh joints = .ok p) :
    List.Pairwise (fun q r => cmpV q.1 r.1 = .lt) p.vertices ∧
      (p.vertices.map Prod.fst).Nodup ∧
      List.Pairwise (fun q r => cmpE q.1 r.1 = .lt) p.edges ∧
      (p.edges.map Prod.fst).Nodup ∧
      ∀ q ∈ p.edges, cmpV q.1.1 q.1.2 ≠ .gt := by
  unfold preprocess_mesh_for_sdf at hok
  cases hv : effectiveValues mesh joints with
  | error e =>
    rw [hv, exceptBind_error] at hok
    exact Except.noConfusion hok
  | ok vs =>
    rw [hv, exceptBind_ok] at hok
    have hp : (PreprocessedMeshData.mk ((chunks3 vs).foldl processTri ⟨[], [], []⟩).vmap
        ((chunks3 vs).foldl processTri ⟨[], [], []⟩).emap
        ((chunks3 vs).foldl processTri ⟨[], [], []⟩).tris) = p := by
      injection hok
    obtain rfl := hp.symm
    have hinv := foldl_processTri_inv (chunks3 vs) ⟨[], [], []⟩ List.Pairwise.nil
      List.Pairwise.nil (by intro q hq; exact absurd hq (List.not_mem_nil q))
    exact ⟨hinv.1, sortedBy_keys_nodup cmpV_law_eq hinv.1,
      hinv.2.1, sortedBy_keys_nodup cmpE_law_eq hinv.2.1, hinv.2.2⟩

/-- Witness for C8: the empty triangle-list mesh. -/
theorem C8_maps_sorted_witness :
    List.Pairwise (fun q r => cmpV q.1 r.1 = .lt)
        (PreprocessedMeshData.mk [] [] []).vertices ∧
      ((PreprocessedMeshData.mk [] [] []).vertices.map Prod.fst).Nodup ∧
      List.Pairwise (fun q r => cmpE q.1 r.1 = .lt)
        (PreprocessedMeshData.mk [] [] []).edges ∧
      ((PreprocessedMeshData.mk [] [] []).edges.map Prod.fst).Nodup ∧
      ∀ q ∈ (PreprocessedMeshData.mk [] [] []).edges, cmpV q.1.1 q.1.2 ≠ .gt :=
  C8_maps_sorted ⟨.triangleList, some (.float32x3 []), none, none, none⟩ none
    ⟨[], [], []⟩ rfl

/-- Constructor disequalities of `Ordering`, as rewrite rules for reducing
the comparison branches on concrete inputs. -/
theorem ordGtLt : (Ordering.gt = Ordering.lt) = False := by simp

theorem ordEqLt : (Ordering.eq = Ordering.lt) = False := by simp

theorem ordLtLt : (Ordering.lt = Ordering.lt) = True := by simp

/-- `sqrtQ` at the perfect square `1`. -/
theorem sqrtQ_one : sqrtQ 1 = 1 := by
  unfold sqrtQ
  norm_num

/-- `sqrtQ` at the non-square `2` takes the idealized default `0`. -/
theorem sqrtQ_two : sqrtQ 2 = 0 := by
  unfold sqrtQ
  have h2 : Nat.sqrt 2 = 1 := (Nat.eq_sqrt.mpr (by norm_num)).symm
  norm_num [h2]

/-- Without joints the effective position stream is the raw position list. -/
theorem effectiveValues_no_joints (tp : PrimitiveTopology)
    (jw ji : Option VertexAttributeValues) (values : List Vec3) :
    effectiveValues ⟨tp, some (.float32x3 values), jw, ji, none⟩ none = .ok values := by
  unfold effectiveValues
  dsimp only
  have hmap : ∀ l : List (ℕ × Vec3),
      (l.mapM fun p => weightCorner ⟨tp, some (.float32x3 values), jw, ji, none⟩
        none p.2 p.1) = .ok (l.map Prod.snd) := by
    intro l
    induction l with
    | nil => rfl
    | cons p t ih =>
      rw [List.mapM_cons]
      rw [show (weightCorner ⟨tp, some (.float32x3 values), jw, ji, none⟩
        none p.2 p.1) = .ok p.2 from rfl]
      rw [exceptBind_ok, ih, exceptBind_ok]
      rfl
  rw [hmap values.enum, List.enum_map_snd]

/-- A one-triangle mesh with counter-clockwise winding. -/
def mesh1 : Mesh :=
  ⟨.triangleList, some (.float32x3 [⟨0, 0, 0⟩, ⟨1, 0, 0⟩, ⟨0, 1, 0⟩]), none, none, none⟩

/-- The same triangle with the opposite winding (two corners swapped). -/
def mesh2 : Mesh :=
  ⟨.triangleList, some (.float32x3 [⟨0, 0, 0⟩, ⟨0, 1, 0⟩, ⟨1, 0, 0⟩]), none, none, none⟩

/-- The preprocessing result of `mesh1`. -/
def p1ex : PreprocessedMeshData :=
  ⟨[(⟨0, 0, 0⟩, ⟨0, 0, 0⟩), (⟨0, 1, 0⟩, ⟨0, 0, 11/7⟩), (⟨1, 0, 0⟩, ⟨0, 0, 11/7⟩)],
   [((⟨0, 0, 0⟩, ⟨0, 1, 0⟩), ⟨0, 0, 1⟩), ((⟨0, 0, 0⟩, ⟨1, 0, 0⟩), ⟨0, 0, 1⟩),
    ((⟨0, 1, 0⟩, ⟨1, 0, 0⟩), ⟨0, 0, 1⟩)],
   [⟨⟨0, 0, 0⟩, ⟨0, 1, 0⟩, ⟨1, 0, 0⟩, -1, ⟨0, 0, 1, 0⟩⟩]⟩

/-- The preprocessing result of `mesh2`: same keys, opposite pseudonormals. -/
def p2ex : PreprocessedMeshData :=
  ⟨[(⟨0, 0, 0⟩, ⟨0, 0, 0⟩), (⟨0, 1, 0⟩, ⟨0, 0, -11/7⟩), (⟨1, 0, 0⟩, ⟨0, 0, -11/7⟩)],
   [((⟨0, 0, 0⟩, ⟨0, 1, 0⟩), ⟨0, 0, -1⟩), ((⟨0, 0, 0⟩, ⟨1, 0, 0⟩), ⟨0, 0, -1⟩),
    ((⟨0, 1, 0⟩, ⟨1, 0, 0⟩), ⟨0, 0, -1⟩)],
   [⟨⟨0, 0, 0⟩, ⟨0, 1, 0⟩, ⟨1, 0, 0⟩, 1, ⟨0, 0, -1, 0⟩⟩]⟩

/-- C1 counterexample: `mesh1` and `mesh2` hold the same single triangle
with opposite winding (the same corner-position triple, no skin data), yet
their accumulated edge (and vertex) pseudonormal maps differ: reversing the
winding negates the face normal, which the canonicalized keys accumulate. -/
theorem C1_counterexample :
    chunks3 [(⟨0, 0, 0⟩ : Vec3), ⟨1, 0, 0⟩, ⟨0, 1, 0⟩] =
        [((⟨0, 0, 0⟩ : Vec3), ⟨1, 0, 0⟩, ⟨0, 1, 0⟩)] ∧
      chunks3 [(⟨0, 0, 0⟩ : Vec3), ⟨0, 1, 0⟩, ⟨1, 0, 0⟩] =
        [((⟨0, 0, 0⟩ : Vec3), ⟨0, 1, 0⟩, ⟨1, 0, 0⟩)] ∧
      preprocess_mesh_for_sdf mesh1 none = .ok p1ex ∧
      preprocess_mesh_for_sdf mesh2 none = .ok p2ex ∧
      p1ex.edges ≠ p2ex.edges ∧ p1ex.vertices ≠ p2ex.vertices := by
  refine ⟨rfl, rfl, ?_, ?_, ?_, ?_⟩
  · unfold preprocess_mesh_for_sdf mesh1
    rw [effectiveValues_no_joints, exceptBind_ok]
    norm_num [p1ex, chunks3, processTri, addTriV, addTriE, triRecord, sortedCorners,
      sort3, cornerAngles, triNormal, Vec3.normalize, Vec3.divScalar, Vec3.cross,
      Vec3.smul, Vec3.lengthSquared, Vec3.dot, Vec3.length, tri_angle, acosQ, cmpV,
      cmpQ, cmpE, insertAdd, sqrtQ_one, sqrtQ_two, Vec3.ext_iff, planeNormal,
      Vec3.extend, Ordering.then, Vec4.ext_iff, ordGtLt, ordEqLt, ordLtLt]
  · unfold preprocess_mesh_for_sdf mesh2
    rw [effectiveValues_no_joints, exceptBind_ok]
    norm_num [p2ex, chunks3, processTri, addTriV, addTriE, triRecord, sortedCorners,
      sort3, cornerAngles, triNormal, Vec3.normalize, Vec3.divScalar, Vec3.cross,
      Vec3.smul, Vec3.lengthSquared, Vec3.dot, Vec3.length, tri_angle, acosQ, cmpV,
      cmpQ, cmpE, insertAdd, sqrtQ_one, sqrtQ_two, Vec3.ext_iff, planeNormal,
      Vec3.extend, Ordering.then, Vec4.ext_iff, ordGtLt, ordEqLt, ordLtLt]
  · norm_num [p1ex, p2ex, Vec3.ext_iff]
  · norm_num [p1ex, p2ex, Vec3.ext_iff]

/-- The vertex map of the preprocessing fold only depends on the vertex
updates. -/
theorem foldl_processTri_vmap (l : List (Vec3 × Vec3 × Vec3)) :
    ∀ s : PreState, (l.foldl processTri s).vmap = l.foldl addTriV s.vmap := by
  induction l with
  | nil => intro s; rfl
  | cons t rest ih =>
    intro s
    rw [List.foldl_cons, List.foldl_cons, ih]
    rfl

/-- The edge map of the preprocessing fold only depends on the edge
updates. -/
theorem foldl_processTri_emap (l : List (Vec3 × Vec3 × Vec3)) :
    ∀ s : PreState, (l.foldl processTri s).emap = l.foldl addTriE s.emap := by
  induction l with
  | nil => intro s; rfl
  | cons t rest ih =>
    intro s
    rw [List.foldl_cons, List.foldl_cons, ih]
    rfl

/-- Folding `insertAdd` over a batch of key/value contributions. -/
def insertList {κ : Type} (cmp : κ → κ → Ordering) (m : List (κ × Vec3))
    (ps : List (κ × Vec3)) : List (κ × Vec3) :=
  ps.foldl (fun acc p => insertAdd cmp p.1 p.2 acc) m

theorem sortedBy_insertList {κ : Type} {cmp : κ → κ → Ordering}
    (hgt : ∀ a b, cmp a b = .gt ↔ cmp b a = .lt)
    (htr : ∀ {a b c}, cmp a b = .lt → cmp b c = .lt → cmp a c = .lt)
    (ps : List (κ × Vec3)) :
    ∀ {m : List (κ × Vec3)}, SortedBy cmp m → SortedBy cmp (insertList cmp m ps) := by
  induction ps with
  | nil => intro m hm; exact hm
  | cons p t ih =>
    intro m hm
    exact ih (sortedBy_insertAdd hgt htr _ _ hm)

theorem insertAdd_insertList_comm {κ : Type} {cmp : κ → κ → Ordering}
    (heq : ∀ a b, cmp a b = .eq ↔ a = b)
    (hgt : ∀ a b, cmp a b = .gt ↔ cmp b a = .lt)
    (htr : ∀ {a b c}, cmp a b = .lt → cmp b c = .lt → cmp a c = .lt)
    (k : κ) (v : Vec3) (ps : List (κ × Vec3)) :
    ∀ {m : List (κ × Vec3)}, SortedBy cmp m →
      insertAdd cmp k v (insertList cmp m ps) =
        insertList cmp (insertAdd cmp k v m) ps := by
  induction ps with
  | nil => intro m _; rfl
  | cons p t ih =>
    intro m hm
    show insertAdd cmp k v (insertList cmp (insertAdd cmp p.1 p.2 m) t) =
      insertList cmp (insertAdd cmp p.1 p.2 (insertAdd cmp k v m)) t
    rw [ih (sortedBy_insertAdd hgt htr _ _ hm),
      insertAdd_comm heq hgt htr p.1 k p.2 v hm]

theorem insertList_comm {κ : Type} {cmp : κ → κ → Ordering}
    (heq : ∀ a b, cmp a b = .eq ↔ a = b)
    (hgt : ∀ a b, cmp a b = .gt ↔ cmp b a = .lt)
    (htr : ∀ {a b c}, cmp a b = .lt → cmp b c = .lt → cmp a c = .lt)
    (ps qs : List (κ × Vec3)) :
    ∀ {m : List (κ × Vec3)}, SortedBy cmp m →
      insertList cmp (insertList cmp m ps) qs =
        insertList cmp (insertList cmp m qs) ps := by
  induction ps with
  | nil => intro m _; rfl
  | cons p t ih =>
    intro m hm
    show insertList cmp (insertList cmp (insertAdd cmp p.1 p.2 m) t) qs =
      insertList cmp (insertList cmp m qs) (p :: t)
    rw [ih (sortedBy_insertAdd hgt htr _ _ hm)]
    show insertList cmp (insertList cmp (insertAdd cmp p.1 p.2 m) qs) t =
      insertList cmp (insertAdd cmp p.1 p.2 (insertList cmp m qs)) t
    rw [insertAdd_insertList_comm heq hgt htr p.1 p.2 qs hm]

/-- The three vertex contributions of a triangle, in source order. -/
def vContribs (t : Vec3 × Vec3 × Vec3) : List (Vec3 × Vec3) :=
  [((sortedCorners t).1, (triNormal t).smul (cornerAngles t).1),
   ((sortedCorners t).2.1, (triNormal t).smul (cornerAngles t).2.1),
   ((sortedCorners t).2.2, (triNormal t).smul (cornerAngles t).2.2)]

/-- The three edge contributions of a triangle, in source order. -/
def eContribs (t : Vec3 × Vec3 × Vec3) : List ((Vec3 × Vec3) × Vec3) :=
  [(((sortedCorners t).1, (sortedCorners t).2.1), triNormal t),
   (((sortedCorners t).1, (sortedCorners t).2.2), triNormal t),
   (((sortedCorners t).2.1, (sortedCorners t).2.2), triNormal t)]

theorem addTriV_eq_insertList (m : List (Vec3 × Vec3)) (t : Vec3 × Vec3 × Vec3) :
    addTriV m t = insertList cmpV m (vContribs t) := rfl

theorem addTriE_eq_insertList (m : List ((Vec3 × Vec3) × Vec3))
    (t : Vec3 × Vec3 × Vec3) : addTriE m t = insertList cmpE m (eContribs t) := rfl

theorem addTriV_comm {m : List (Vec3 × Vec3)} (hm : SortedBy cmpV m)
    (t₁ t₂ : Vec3 × Vec3 × Vec3) :
    addTriV (addTriV m t₁) t₂ = addTriV (addTriV m t₂) t₁ := by
  rw [addTriV_eq_insertList, addTriV_eq_insertList, addTriV_eq_insertList,
    addTriV_eq_insertList,
    insertList_comm cmpV_law_eq cmpV_law_gt cmpV_law_tr (vContribs t₁) (vContribs t₂) hm]

theorem addTriE_comm {m : List ((Vec3 × Vec3) × Vec3)} (hm : SortedBy cmpE m)
    (t₁ t₂ : Vec3 × Vec3 × Vec3) :
    addTriE (addTriE m t₁) t₂ = addTriE (addTriE m t₂) t₁ := by
  rw [addTriE_eq_insertList, addTriE_eq_insertList, addTriE_eq_insertList,
    addTriE_eq_insertList,
    insertList_comm cmpE_law_eq cmpE_law_gt cmpE_law_tr (eContribs t₁) (eContribs t₂) hm]

/-- A fold with a state invariant and commuting steps is permutation
invariant. -/
theorem foldl_perm_inv {α β : Type} (P : β → Prop) (f : β → α → β)
    (hP : ∀ b a, P b → P (f b a))
    (hc : ∀ b a₁ a₂, P b → f (f b a₁) a₂ = f (f b a₂) a₁)
    {l₁ l₂ : List α} (p : l₁.Perm l₂) :
    ∀ b, P b → l₁.foldl f b = l₂.foldl f b := by
  induction p with
  | nil => intro b _; rfl
  | cons x _ ih =>
    intro b hb
    rw [List.foldl_cons, List.foldl_cons]
    exact ih (f b x) (hP b x hb)
  | swap x y l =>
    intro b hb
    rw [List.foldl_cons, List.foldl_cons, List.foldl_cons, List.foldl_cons,
      hc b y x hb]
  | trans p₁ _ ih₁ ih₂ =>
    intro b hb
    rw [ih₁ b hb, ih₂ b hb]

/-- C1 (amended): two meshes with no skin data whose triangle streams hold
the same multiset of corner-position triples *with the same winding*
(listed in any order) preprocess to identical accumulated vertex and edge
pseudonormal maps.  (Opposite winding negates the face normal and changes
the accumulated values; see the counterexample.) -/
theorem C1_order_independence (m₁ m₂ : Mesh) (vs₁ vs₂ : List Vec3)
    (p₁ p₂ : PreprocessedMeshData)
    (hv₁ : effectiveValues m₁ none = .ok vs₁)
    (hv₂ : effectiveValues m₂ none = .ok vs₂)
    (hperm : (chunks3 vs₁).Perm (chunks3 vs₂))
    (h₁ : preprocess_mesh_for_sdf m₁ none = .ok p₁)
    (h₂ : preprocess_mesh_for_sdf m₂ none = .ok p₂) :
    p₁.vertices = p₂.vertices ∧ p₁.edges = p₂.edges := by
  unfold preprocess_mesh_for_sdf at h₁ h₂
  rw [hv₁, exceptBind_ok] at h₁
  rw [hv₂, exceptBind_ok] at h₂
  have e₁ : PreprocessedMeshData.mk
      ((chunks3 vs₁).foldl processTri ⟨[], [], []⟩).vmap
      ((chunks3 vs₁).foldl processTri ⟨[], [], []⟩).emap
      ((chunks3 vs₁).foldl processTri ⟨[], [], []⟩).tris = p₁ := by injection h₁
  have e₂ : PreprocessedMeshData.mk
      ((chunks3 vs₂).foldl processTri ⟨[], [], []⟩).vmap
      ((chunks3 vs₂).foldl processTri ⟨[], [], []⟩).emap
      ((chunks3 vs₂).foldl processTri ⟨[], [], []⟩).tris = p₂ := by injection h₂
  rw [← e₁, ← e₂]
  constructor
  · show ((chunks3 vs₁).foldl processTri ⟨[], [], []⟩).vmap =
      ((chunks3 vs₂).foldl processTri ⟨[], [], []⟩).vmap
    rw [foldl_processTri_vmap, foldl_processTri_vmap]
    exact foldl_perm_inv (SortedBy cmpV) addTriV (fun b a hb => addTriV_sorted hb a)
      (fun b a₁ a₂ hb => addTriV_comm hb a₁ a₂) hperm [] List.Pairwise.nil
  · show ((chunks3 vs₁).foldl processTri ⟨[], [], []⟩).emap =
      ((chunks3 vs₂).foldl processTri ⟨[], [], []⟩).emap
    rw [foldl_processTri_emap, foldl_processTri_emap]
    exact foldl_perm_inv (SortedBy cmpE) addTriE (fun b a hb => addTriE_sorted hb a)
      (fun b a₁ a₂ hb => addTriE_comm hb a₁ a₂) hperm [] List.Pairwise.nil

/-- `preprocess_mesh_for_sdf` without joints, written as its fold. -/
theorem preprocess_no_joints_eq (tp : PrimitiveTopology)
    (jw ji : Option VertexAttributeValues) (values : List Vec3) :
    preprocess_mesh_for_sdf ⟨tp, some (.float32x3 values), jw, ji, none⟩ none =
      .ok ⟨((chunks3 values).foldl processTri ⟨[], [], []⟩).vmap,
           ((chunks3 values).foldl processTri ⟨[], [], []⟩).emap,
           ((chunks3 values).foldl processTri ⟨[], [], []⟩).tris⟩ := by
  unfold preprocess_mesh_for_sdf
  rw [effectiveValues_no_joints, exceptBind_ok]

/-- A two-triangle position stream. -/
def vals12 : List Vec3 := [⟨0, 0, 0⟩, ⟨1, 0, 0⟩, ⟨0, 1, 0⟩, ⟨0, 0, 1⟩, ⟨1, 0, 1⟩, ⟨0, 1, 1⟩]

/-- The same two triangles listed in the opposite order. -/
def vals21 : List Vec3 := [⟨0, 0, 1⟩, ⟨1, 0, 1⟩, ⟨0, 1, 1⟩, ⟨0, 0, 0⟩, ⟨1, 0, 0⟩, ⟨0, 1, 0⟩]

/-- Witness for C1: two concrete meshes holding the same two triangles in
swapped order produce identical vertex and edge maps. -/
theorem C1_order_independence_witness :
    (PreprocessedMeshData.mk
        ((chunks3 vals12).foldl processTri ⟨[], [], []⟩).vmap
        ((chunks3 vals12).foldl processTri ⟨[], [], []⟩).emap
        ((chunks3 vals12).foldl processTri ⟨[], [], []⟩).tris).vertices =
      (PreprocessedMeshData.mk
        ((chunks3 vals21).foldl processTri ⟨[], [], []⟩).vmap
        ((chunks3 vals21).foldl processTri ⟨[], [], []⟩).emap
        ((chunks3 vals21).foldl processTri ⟨[], [], []⟩).tris).vertices ∧
      (PreprocessedMeshData.mk
        ((chunks3 vals12).foldl processTri ⟨[], [], []⟩).vmap
        ((chunks3 vals12).foldl processTri ⟨[], [], []⟩).emap
        ((chunks3 vals12).foldl processTri ⟨[], [], []⟩).tris).edges =
      (PreprocessedMeshData.mk
        ((chunks3 vals21).foldl processTri ⟨[], [], []⟩).vmap
        ((chunks3 vals21).foldl processTri ⟨[], [], []⟩).emap
        ((chunks3 vals21).foldl processTri ⟨[], [], []⟩).tris).edges :=
  C1_order_independence
    ⟨.triangleList, some (.float32x3 vals12), none, none, none⟩
    ⟨.triangleList, some (.float32x3 vals21), none, none, none⟩
    vals12 vals21 _ _
    (effectiveValues_no_joints _ _ _ _) (effectiveValues_no_joints _ _ _ _)
    (List.Perm.swap _ _ [])
    (preprocess_no_joints_eq _ _ _ _) (preprocess_no_joints_eq _ _ _ _)

/-- `weight_with_joints` fails on a missing or badly-typed joint-weight
attribute. -/
theorem weightWithJoints_bad_weights (mesh : Mesh) (js : List Mat4) (v : Vec3)
    (i : ℕ) (hbad : ∀ l, mesh.jointWeights ≠ some (.float32x4 l)) :
    weightWithJoints mesh js v i = .error "bad joint weights!" := by
  unfold weightWithJoints
  cases hjw : mesh.jointWeights with
  | none => rfl
  | some vav =>
    cases vav with
    | float32x4 l => exact absurd hjw (hbad l)
    | float32x3 _ => rfl
    | uint16x4 _ => rfl
    | otherFormat => rfl

/-- `weight_with_joints` fails on a missing or badly-typed joint-index
attribute when the weights are well-typed. -/
theorem weightWithJoints_bad_indexes (mesh : Mesh) (js : List Mat4) (v : Vec3)
    (i : ℕ) (jwl : List Vec4) (hjw : mesh.jointWeights = some (.float32x4 jwl))
    (hbad : ∀ l, mesh.jointIndices ≠ some (.uint16x4 l)) :
    weightWithJoints mesh js v i = .error "bad joint indexes!" := by
  unfold weightWithJoints
  rw [hjw]
  cases hji : mesh.jointIndices with
  | none => rfl
  | some vav =>
    cases vav with
    | uint16x4 l => exact absurd hji (hbad l)
    | float32x3 _ => rfl
    | float32x4 _ => rfl
    | otherFormat => rfl

/-- Preprocessing fails on a missing or badly-typed `POSITION` attribute. -/
theorem preprocess_bad_positions (mesh : Mesh) (joints : Option (List Mat4))
    (hbad : ∀ l, mesh.positions ≠ some (.float32x3 l)) :
    preprocess_mesh_for_sdf mesh joints = .error "bad mesh" := by
  have heff : effectiveValues mesh joints = .error "bad mesh" := by
    unfold effectiveValues
    cases hp : mesh.positions with
    | none => rfl
    | some vav =>
      cases vav with
      | float32x3 l => exact absurd hp (hbad l)
      | float32x4 _ => rfl
      | uint16x4 _ => rfl
      | otherFormat => rfl
  unfold preprocess_mesh_for_sdf
  rw [heff, exceptBind_error]

/-- C7 counterexample: a triangle-list mesh with an empty position list and
joint matrices supplied, but with both joint attributes missing, is
preprocessed successfully instead of failing fast: the joint-attribute
checks live inside the per-vertex closure and never run when there is no
vertex to transform. -/
theorem C7_counterexample :
    (Mesh.mk .triangleList (some (.float32x3 [])) none none none).jointWeights =
        none ∧
      (Mesh.mk .triangleList (some (.float32x3 [])) none none none).jointIndices =
        none ∧
      preprocess_mesh_for_sdf
        (Mesh.mk .triangleList (some (.float32x3 [])) none none none)
        (some []) = .ok ⟨[], [], []⟩ :=
  ⟨rfl, rfl, rfl⟩

/-- C7 (amended): the pipeline fails fast with a descriptive error on
non-triangle-list topology and on a missing or badly-typed `POSITION`
attribute; when joint matrices are supplied, a missing or badly-typed
joint-weight or joint-index attribute fails as soon as at least one
position is actually transformed (the check is per-vertex, so a mesh with
no effective positions slips through; `create_sdf_from_mesh_cpu` itself
always preprocesses without joints). -/
theorem C7_fail_fast (enc : ℚ → List ℕ) (mesh : Mesh) (aabb : Aabb)
    (dimension : UVec3) (joints : List Mat4) :
    (mesh.primitiveTopology ≠ .triangleList →
      create_sdf_from_mesh_cpu enc mesh aabb dimension =
        .error "sdf generation can only work on TriangleLists") ∧
      ((∀ l, mesh.positions ≠ some (.float32x3 l)) →
        preprocess_mesh_for_sdf mesh (some joints) = .error "bad mesh" ∧
          preprocess_mesh_for_sdf mesh none = .error "bad mesh" ∧
          (mesh.primitiveTopology = .triangleList →
            create_sdf_from_mesh_cpu enc mesh aabb dimension = .error "bad mesh")) ∧
      ∀ tp : PrimitiveTopology, ∀ jw ji : Option VertexAttributeValues,
        ∀ v : Vec3, ∀ vs : List Vec3,
        ((∀ l, jw ≠ some (.float32x4 l)) →
          preprocess_mesh_for_sdf ⟨tp, some (.float32x3 (v :: vs)), jw, ji, none⟩
            (some joints) = .error "bad joint weights!") ∧
        ∀ jwl : List Vec4, jw = some (.float32x4 jwl) →
          (∀ l, ji ≠ some (.uint16x4 l)) →
          preprocess_mesh_for_sdf ⟨tp, some (.float32x3 (v :: vs)), jw, ji, none⟩
            (some joints) = .error "bad joint indexes!" := by
  refine ⟨?_, ?_, ?_⟩
  · intro htopo
    unfold create_sdf_from_mesh_cpu
    cases htp : mesh.primitiveTopology with
    | triangleList => exact absurd htp htopo
    | pointList => rfl
    | lineList => rfl
    | lineStrip => rfl
    | triangleStrip => rfl
  · intro hbad
    refine ⟨preprocess_bad_positions mesh (some joints) hbad,
      preprocess_bad_positions mesh none hbad, fun htopo => ?_⟩
    unfold create_sdf_from_mesh_cpu
    rw [htopo]
    rw [preprocess_bad_positions mesh none hbad, exceptBind_error]
  · intro tp jw ji v vs
    have hfirst : ∀ e : String,
        weightWithJoints ⟨tp, some (.float32x3 (v :: vs)), jw, ji, none⟩ joints v 0 =
          .error e →
        preprocess_mesh_for_sdf ⟨tp, some (.float32x3 (v :: vs)), jw, ji, none⟩
          (some joints) = .error e := by
      intro e he
      have heff : effectiveValues ⟨tp, some (.float32x3 (v :: vs)), jw, ji, none⟩
          (some joints) = .error e := by
        unfold effectiveValues
        dsimp only
        show ((0, v) :: (List.enumFrom 1 vs)).mapM (fun p =>
          weightCorner ⟨tp, some (.float32x3 (v :: vs)), jw, ji, none⟩
            (some joints) p.2 p.1) = .error e
        rw [List.mapM_cons]
        rw [show (weightCorner ⟨tp, some (.float32x3 (v :: vs)), jw, ji, none⟩
          (some joints) v 0) = .error e from he]
        rfl
      unfold preprocess_mesh_for_sdf
      rw [heff, exceptBind_error]
    refine ⟨fun hbadw => hfirst _ (weightWithJoints_bad_weights _ joints v 0 hbadw),
      fun jwl hjw hbadi => hfirst _ (weightWithJoints_bad_indexes _ joints v 0 jwl hjw hbadi)⟩
